import Mathlib

/-!
Shallow embedding of the EdgeDB compiler core fragments relevant to the
type-inference engine (edb/edgeql/compiler/inference/types.py), the
schema-delta translator (edb/pgsql/delta.py: enum evolution and
inheritance-view batching) and the backend error translator
(edb/server/compiler/errormech.py).

Conventions used throughout:
  - Python mutation of the inference environment is explicit state passing.
  - Python exceptions are an Except error monad; the distinction between
    QueryError and low-level exceptions such as IndexError is preserved.
  - Machine-level details that the embedded code does not inspect
    (string repr quoting of names inside messages) are simplified; every
    such simplification is noted next to the definition.
  - Recursion of the inference engine is fuel-indexed: infer_type consumes
    one unit of fuel per recursive descent and all other functions are
    parametric in the inference callback, mirroring the call graph of the
    source exactly.
-/

/-- Qualified name `(module, name)`. Modelled from the spec: the schema
name module (edb/schema/name.py) is not under src/; spec section 3.1
describes qualified names as pairs equal by component equality. -/
structure QualName where
  module : String
  name : String
deriving DecidableEq, Repr

/-- Schema-type universe covering the cases the embedded inference code
distinguishes: scalar types, object types, arrays and pseudo types. -/
inductive SType where
  | scalar (name : String)
  | obj (name : String)
  | array (elem : SType)
  | pseudo (name : String)
deriving DecidableEq, Repr

/-- Modelled from the spec: the implicit-cast edges of the std scalar
library (edb/schema/casts.py and the std library are not under src/);
only reflexivity and integer/float widening are represented. -/
def scalarCastEdges : List (String × String) :=
  [("std::int16", "std::int32"), ("std::int16", "std::int64"),
   ("std::int32", "std::int64"), ("std::float32", "std::float64")]

/-- Modelled from the spec: `Type.implicitly_castable_to` (edb/schema is
not under src/).  A type is implicitly castable to itself; scalar casts
follow the std cast edges; arrays cast covariantly. -/
def implicitly_castable_to : SType → SType → Bool
  | .scalar a, .scalar b => a = b || (a, b) ∈ scalarCastEdges
  | .array a, .array b => implicitly_castable_to a b
  | a, b => a = b

/-- Modelled from the spec: `Type.issubclass` over a flat std schema with
no user-declared scalar inheritance: subclassing is reflexive only. -/
def stype_issubclass (a b : SType) : Bool := a = b

/-- Modelled from the spec: `Type.find_common_implicitly_castable_type`
(edb/schema/types.py is not under src/): the nearer of the two types
under the implicit-cast preorder, if comparable. -/
def find_common_implicitly_castable_type (a b : SType) : Option SType :=
  if a = b then some a
  else if implicitly_castable_to a b then some b
  else if implicitly_castable_to b a then some a
  else none

/-- Modelled from the spec (section 4.1): nearest common ancestors over
the (here: flat) object-type DAG — the maximal types every input is a
subclass of; with reflexive-only subclassing this is the common value. -/
def get_class_nearest_common_ancestors (types : List SType) : List SType :=
  (types.filter fun a => types.all fun t => stype_issubclass t a).dedup

/-- The segment after the last `::` separator (the whole name when
there is none): the unqualified form of a qualified name. -/
def afterDoubleColon : List Char → List Char → List Char
  | cur, [] => cur.reverse
  | _, ':' :: ':' :: rest => afterDoubleColon [] rest
  | cur, c :: rest => afterDoubleColon (c :: cur) rest

def shortName (n : String) : String :=
  String.mk (afterDoubleColon [] n.toList)

/-- Embeds `get_displayname`: the unqualified name (module prefix stripped). -/
def displayName : SType → String
  | .scalar n => shortName n
  | .obj n => shortName n
  | .array t => "array<" ++ displayName t ++ ">"
  | .pseudo n => n

/-- Embeds `get_verbosename`; repr quoting around the name is not modelled. -/
def verboseName : SType → String
  | .scalar n => "scalar type " ++ n
  | .obj n => "object type " ++ n
  | .array _ => "array"
  | .pseudo n => n

def stdStr : SType := .scalar "std::str"
def stdInt64 : SType := .scalar "std::int64"
def stdJson : SType := .scalar "std::json"
def stdBytes : SType := .scalar "std::bytes"
def stdBool : SType := .scalar "std::bool"

/-- A PathId restricted to what amend_empty_set_type reads and writes:
the target name hint, the namespace, and the target type.  Modelled from
the spec: edb/ir/pathid.py is not under src/; spec section 3.3 describes
PathId equality as structural. -/
structure PathId where
  target_name_hint : QualName
  ns : List String
  styp : Option SType
deriving DecidableEq, Repr

/-- Embeds `PathId.from_type(schema, t, env, typename, namespace)`, modelled from
the spec: builds a path id for type `t` named `typename` in the given
namespace. -/
def PathId.from_type (t : SType) (typename : QualName) (ns : List String) : PathId :=
  ⟨typename, ns, some t⟩

/-- The IR expression fragment the embedded inference rules dispatch on.
`setE uid empty` covers irast.Set and its subclass irast.EmptySet
(distinguished by the `empty` flag, i.e. the isinstance test); the node
identity `uid` keys the per-set environment maps.  `constE` covers the
typeref-carrying leaves (BaseConstant, Parameter, calls), with
ir_typeref_to_type modelled as the identity on the resolved type. -/
inductive Expr where
  | setE (uid : Nat) (empty : Bool)
  | constE (t : SType)
  | typeCheckOp (l r : Expr)
  | indexIndirection (e i : Expr)
deriving DecidableEq, Repr

def isEmptySetE : Expr → Bool
  | .setE _ true => true
  | _ => false

def uidOf : Expr → Nat
  | .setE uid _ => uid
  | _ => 0

/-- All Set uids occurring in an expression. -/
def exprUids : Expr → List Nat
  | .setE uid _ => [uid]
  | .constE _ => []
  | .typeCheckOp l r => exprUids l ++ exprUids r
  | .indexIndirection e i => exprUids e ++ exprUids i

/-- Python exceptions escaping the inference code.  `indexError` stands
for the built-in IndexError; `outOfFuel` is the fuel-exhaustion artifact
of the embedding and corresponds to no source behavior. -/
inductive Err where
  | queryError (msg : String)
  | indexError
  | outOfFuel
deriving DecidableEq, Repr

/-- Inference environment.  Modelled from the spec (section 4.2):
edb/edgeql/compiler/context.py is not under src/; `env` carries a
memoization map from IR node identity to inferred type and a patch map
`set_types` recording types assigned to Set nodes.  The mutable
`path_id` field of EmptySet nodes is carried here, keyed by uid. -/
structure Env where
  set_types : Nat → Option SType
  pathIds : Nat → PathId
  inferred : List (Expr × SType)

def lookupMemo (l : List (Expr × SType)) (e : Expr) : Option SType :=
  match l with
  | [] => none
  | (k, v) :: rest => if k = e then some v else lookupMemo rest e

/-- Embeds `amend_empty_set_type(es, t, env)`: records `t` for the set and
re-derives its path id under module `__derived__`, keeping the original
name hint and namespace (types.py lines 43-54). -/
def amend_empty_set_type (uid : Nat) (t : SType) (env : Env) : Env :=
  let aliasName := (env.pathIds uid).target_name_hint.name
  let typename : QualName := ⟨"__derived__", aliasName⟩
  { env with
    set_types := fun u => if u = uid then some t else env.set_types u
    pathIds := fun u =>
      if u = uid then PathId.from_type t typename (env.pathIds uid).ns
      else env.pathIds u }

/-- The inference callback type: `infer_type` at the enclosing fuel. -/
abbrev InferFn := Expr → Env → Except Err (SType × Env)

/-- Embeds `_infer_binop_args(left, right, env)` (types.py lines 231-260). -/
def infer_binop_args (it : InferFn) (left right : Expr) (env : Env) :
    Except Err ((SType × SType) × Env) := do
  let (inferred_left_type, env1) ←
    if isEmptySetE left then pure ((none : Option SType), env)
    else do
      let (t, e) ← it left env
      pure (some t, e)
  let (inferred_right_type, env2) ←
    if isEmptySetE right then pure ((none : Option SType), env1)
    else do
      let (t, e) ← it right env1
      pure (some t, e)
  match inferred_right_type with
  | some rt =>
      let env3 := if isEmptySetE left then amend_empty_set_type (uidOf left) rt env2 else env2
      pure ((rt, rt), env3)
  | none =>
      match inferred_left_type with
      | some lt =>
          let env3 := if isEmptySetE right then amend_empty_set_type (uidOf right) lt env2 else env2
          pure ((lt, lt), env3)
      | none =>
          throw (.queryError "cannot determine the type of an empty set")

/-- Embeds `__infer_index` (types.py lines 429-504): per-operand indexing rule.
The anyscalar disjunct reproduces the source grouping
`is_any or (is anyscalar and index castable)` exactly. -/
def infer_index (it : InferFn) (e i : Expr) (env : Env) :
    Except Err (Option SType × Env) := do
  let (node_type, env1) ← it e env
  let (index_type, env2) ← it i env1
  if stype_issubclass node_type stdStr then
    if !(implicitly_castable_to index_type stdInt64) then
      throw (.queryError ("cannot index string by " ++ displayName index_type ++
        ", " ++ displayName stdInt64 ++ " was expected"))
    else pure (some stdStr, env2)
  else if stype_issubclass node_type stdBytes then
    if !(implicitly_castable_to index_type stdInt64) then
      throw (.queryError ("cannot index bytes by " ++ displayName index_type ++
        ", " ++ displayName stdInt64 ++ " was expected"))
    else pure (some stdBytes, env2)
  else if stype_issubclass node_type stdJson then
    if !(implicitly_castable_to index_type stdInt64 ||
         implicitly_castable_to index_type stdStr) then
      throw (.queryError ("cannot index json by " ++ displayName index_type ++
        ", " ++ displayName stdInt64 ++ " or " ++ displayName stdStr ++
        " was expected"))
    else pure (some stdJson, env2)
  else
    match node_type with
    | .array elem =>
        if !(implicitly_castable_to index_type stdInt64) then
          throw (.queryError ("cannot index array by " ++ displayName index_type ++
            ", " ++ displayName stdInt64 ++ " was expected"))
        else pure (some elem, env2)
    | _ =>
        if node_type = .pseudo "anytype" ||
            ((node_type = .scalar "std::anyscalar") &&
              (implicitly_castable_to index_type stdInt64 ||
               implicitly_castable_to index_type stdStr)) then
          pure (some (.pseudo "anytype"), env2)
        else
          throw (.queryError ("index indirection cannot be applied to " ++
            verboseName node_type))

/-- Embeds the `_infer_type` dispatch (types.py): `__infer_set` returns the recorded
set type (covering EmptySet, which has no specific registration),
`__infer_const` resolves the typeref, `__infer_typecheckop` harmonizes
the operands and returns std::bool, and IndexIndirection dispatches to
the indexing rule. -/
def infer_dispatch (it : InferFn) (e : Expr) (env : Env) :
    Except Err (Option SType × Env) :=
  match e with
  | .setE uid _ => pure (env.set_types uid, env)
  | .constE t => pure (some t, env)
  | .typeCheckOp l r => do
      let (_, env1) ← infer_binop_args it l r env
      pure (some stdBool, env1)
  | .indexIndirection e i => infer_index it e i env

/-- Embeds `infer_type(ir, env)` (types.py lines 542-563): memoized dispatch;
a None dispatch result raises QueryError.  Fuel decreases on each
recursive descent. -/
def infer_type : Nat → Expr → Env → Except Err (SType × Env)
  | 0, _, _ => throw .outOfFuel
  | fuel + 1, e, env =>
    match lookupMemo env.inferred e with
    | some t => pure (t, env)
    | none =>
        match infer_dispatch (infer_type fuel) e env with
        | .error er => .error er
        | .ok (none, _) => throw (.queryError "could not determine expression type")
        | .ok (some t, env1) => pure (t, { env1 with inferred := (e, t) :: env1.inferred })

/-- Classification flags of `_infer_common_type`:
(seen_coll, seen_scalar, seen_object), in the elif order of the source. -/
def classifyFlags (t : SType) : Bool × Bool × Bool :=
  match t with
  | .array _ => (true, false, false)
  | .scalar _ => (false, true, false)
  | _ => (false, false, true)

/-- The partition loop of `_infer_common_type` (types.py lines 66-85):
walks the arguments, collecting untyped EmptySets into `empties` and the
inferred types of the rest (in order) into `types`, accumulating the
seen_coll/seen_scalar/seen_object flags. -/
def partitionArgs (it : InferFn) : List Expr → Env →
    Except Err ((List SType × List Nat × (Bool × Bool × Bool)) × Env)
  | [], env => pure (([], [], (false, false, false)), env)
  | arg :: rest, env =>
    if isEmptySetE arg && (env.set_types (uidOf arg)).isNone then do
      let ((ts, es, flags), env') ← partitionArgs it rest env
      pure ((ts, uidOf arg :: es, flags), env')
    else do
      let (t, env1) ← it arg env
      let ((ts, es, flags), env2) ← partitionArgs it rest env1
      let (c0, s0, o0) := flags
      let (c1, s1, o1) := classifyFlags t
      pure ((t :: ts, es, (c0 || c1, s0 || s1, o0 || o1)), env2)

/-- The pairwise scalar/collection fold of `_infer_common_type`
(types.py lines 97-112): start from the first type and fold
find_common_implicitly_castable_type, sticking at None. -/
def foldCommonCastable : List SType → Option SType
  | [] => none
  | t :: rest =>
      rest.foldl (fun acc n => acc.bind fun c => find_common_implicitly_castable_type c n)
        (some t)

def amendAll (empties : List Nat) (t : SType) (env : Env) : Env :=
  empties.foldl (fun acc u => amend_empty_set_type u t acc) env

def b2n (b : Bool) : Nat := if b then 1 else 0

/-- Embeds `_infer_common_type(irs, env)` (types.py lines 57-128).  The empty
argument guard evaluates `irs[0].context` while building the QueryError,
which raises IndexError first; this is preserved.  On success every
collected empty argument is amended with the common type. -/
def _infer_common_type (fuel : Nat) (irs : List Expr) (env : Env) :
    Except Err (Option SType × Env) :=
  if irs.isEmpty then throw .indexError
  else do
    let ((types, empties, flags), env1) ← partitionArgs (infer_type fuel) irs env
    let (seen_coll, seen_scalar, seen_object) := flags
    if b2n seen_coll + b2n seen_scalar + b2n seen_object > 1 then
      throw (.queryError "cannot determine common type")
    else if types.isEmpty then
      throw (.queryError "cannot determine common type of an empty set")
    else
      let common : Option SType :=
        if seen_scalar || seen_coll then foldCommonCastable types
        else (get_class_nearest_common_ancestors types).head?
      match common with
      | none => pure (none, env1)
      | some ct => pure (some ct, amendAll empties ct env1)

/-!
Embedding of the enum-evolution portion of
`AlterScalarType._alter_begin` (edb/pgsql/delta.py lines 2121-2212),
restricted to the backend operations emitted for the enum value list
change: the function of the old and new value lists.
-/

/-- Backend operations emitted for an enum alteration. -/
inductive EnumOp where
  | dropEnum (name : String)
  | createEnum (name : String) (values : List String)
  | alterEnumAddValue (name : String) (v : String) (before : Option String)
deriving DecidableEq, Repr

/-- Embeds `needs_recreate` (delta.py lines 2152-2154): values differ and the
old list is not a prefix of the new list. -/
def needs_recreate (old new : List String) : Bool :=
  old ≠ new && old ≠ new.take old.length

/-- The add-value loop of `_alter_begin` (delta.py lines 2175-2192):
walks the new values against the remaining old values (the list is
mutated by inserts in the source; here the remaining suffix is passed
along), emitting ADD VALUE, with BEFORE when the old cursor disagrees. -/
def enumAddValueLoop (tn : String) : List String → List String → List EnumOp
  | [], _ => []
  | v :: vs, [] => .alterEnumAddValue tn v none :: enumAddValueLoop tn vs []
  | v :: vs, o :: os =>
      if v = o then enumAddValueLoop tn vs os
      else .alterEnumAddValue tn v (some o) :: enumAddValueLoop tn vs (v :: o :: os)

/-- The enum operations emitted by `_alter_begin` (delta.py lines
2164-2192): nothing when the new value list is empty; DROP+CREATE when
`needs_recreate`; otherwise the add-value loop when the lists differ. -/
def enum_alter_ops (tn : String) (old new : List String) : List EnumOp :=
  if new.isEmpty then []
  else if needs_recreate old new then
    [.dropEnum tn, .createEnum tn new]
  else if old ≠ new then enumAddValueLoop tn new old
  else []

/-!
Embedding of the inheritance-view batching of
`CompositeMetaCommand` (edb/pgsql/delta.py lines 2510-2614).  Sources
are identified by numbers; the schema supplies the ancestor list and
the has_table predicate.
-/

/-- The schema facts the inhview batching consults. -/
structure InhSchema where
  ancestors : Nat → List Nat
  hasTable : Nat → Bool

/-- View operations added to pgops (Comment ops included). -/
inductive ViewOp where
  | dropView (s : Nat) (conditional : Bool)
  | createView (s : Nat) (orReplace : Bool)
  | commentView (s : Nat)
deriving DecidableEq, Repr

/-- Embeds `drop_inhview` (delta.py lines 2581-2593): a DropView, conditional
on view existence when requested. -/
def drop_inhview_ops (s : Nat) (conditional : Bool) : List ViewOp :=
  [.dropView s conditional]

/-- Embeds `create_inhview` with alter_ancestors=False (delta.py lines
2510-2528): asserts has_table, then CREATE VIEW plus a comment.  The
assertion failure is `none`. -/
def create_inhview_ops (sch : InhSchema) (s : Nat) : Option (List ViewOp) :=
  if sch.hasTable s then some [.createView s false, .commentView s] else none

/-- Embeds `alter_inhview` with alter_ancestors=False (delta.py lines
2532-2555): asserts has_table, then CREATE OR REPLACE VIEW plus a
comment. -/
def alter_inhview_ops (sch : InhSchema) (s : Nat) : Option (List ViewOp) :=
  if sch.hasTable s then some [.createView s true, .commentView s] else none

/-- Embeds `recreate_inhview` with alter_ancestors=False (delta.py lines
2560-2579): conditional drop followed by create. -/
def recreate_inhview_ops (sch : InhSchema) (s : Nat) : Option (List ViewOp) :=
  (create_inhview_ops sch s).map (fun ops => drop_inhview_ops s true ++ ops)

/-- Embeds `apply_scheduled_inhview_updates` (delta.py lines 2595-2614):
recreate every recorded source; alter (replace) every ancestor of a
recorded source that is not itself recorded and has a table.  The
recorded set is carried as a duplicate-free list. -/
def apply_scheduled_inhview_updates (sch : InhSchema) (updates : List Nat) :
    Option (List ViewOp) :=
  if updates.isEmpty then some []
  else do
    let to_recreate := updates
    let to_alter := ((updates.flatMap sch.ancestors).dedup).filter fun a => a ∉ to_recreate
    let recOps ← to_recreate.mapM (recreate_inhview_ops sch)
    let altOps ← (to_alter.filter sch.hasTable).mapM (alter_inhview_ops sch)
    pure (recOps.flatten ++ altOps.flatten)

/-!
Embedding of the backend error translator
(edb/server/compiler/errormech.py).  Backend error field maps are
modelled with the protocol-mandatory Message and Code fields present
(the claims under scrutiny quantify over maps carrying a code field;
the M field is mandatory in the backend wire protocol) and the D field
already split into its plain and JSON-parsed forms.  String repr
quoting inside produced messages is not modelled.
-/

/-- SQLSTATE constants of edb/server/pgcon/errors.py (not under src/);
modelled from the spec (section 6.2 table) and the standard SQLSTATE
assignments. -/
def ERROR_NOT_NULL_VIOLATION : String := "23502"
def ERROR_INTEGRITY_CONSTRAINT_VIOLATION : String := "23000"
def ERROR_RESTRICT_VIOLATION : String := "23001"
def ERROR_FOREIGN_KEY_VIOLATION : String := "23503"
def ERROR_UNIQUE_VIOLATION : String := "23505"
def ERROR_CHECK_VIOLATION : String := "23514"
def ERROR_EXCLUSION_VIOLATION : String := "23P01"
def ERROR_INVALID_TEXT_REPRESENTATION : String := "22P02"
def ERROR_NUMERIC_VALUE_OUT_OF_RANGE : String := "22003"
def ERROR_INVALID_DATETIME_FORMAT : String := "22007"
def ERROR_DATETIME_FIELD_OVERFLOW : String := "22008"
def ERROR_INVALID_PARAMETER_VALUE : String := "22023"
def ERROR_WRONG_OBJECT_TYPE : String := "42809"
def ERROR_DIVISION_BY_ZERO : String := "22012"
def ERROR_INTERVAL_FIELD_OVERFLOW : String := "22015"
def ERROR_READ_ONLY_SQL_TRANSACTION : String := "25006"
def ERROR_SERIALIZATION_FAILURE : String := "40001"
def ERROR_DEADLOCK_DETECTED : String := "40P01"
def ERROR_INVALID_CATALOG_NAME : String := "3D000"
def ERROR_OBJECT_IN_USE : String := "55006"
def ERROR_DUPLICATE_DATABASE : String := "42P04"
def ERROR_CARDINALITY_VIOLATION : String := "21000"

/-- Embeds `SCHEMA_CODES` (errormech.py lines 46-51). -/
def SCHEMA_CODES : List String :=
  [ERROR_INVALID_TEXT_REPRESENTATION, ERROR_NUMERIC_VALUE_OUT_OF_RANGE,
   ERROR_INVALID_DATETIME_FORMAT, ERROR_DATETIME_FIELD_OVERFLOW]

/-- Embeds `constraint_errors` (errormech.py lines 66-74). -/
def constraint_errors : List String :=
  [ERROR_INTEGRITY_CONSTRAINT_VIOLATION, ERROR_RESTRICT_VIOLATION,
   ERROR_NOT_NULL_VIOLATION, ERROR_FOREIGN_KEY_VIOLATION,
   ERROR_UNIQUE_VIOLATION, ERROR_CHECK_VIOLATION,
   ERROR_EXCLUSION_VIOLATION]

/-- The domain error classes constructed by the translator. -/
inductive ErrClass where
  | internalServerError
  | cardinalityViolationError
  | unknownLinkError
  | constraintViolationError
  | missingRequiredError
  | invalidValueError
  | numericOutOfRangeError
  | divisionByZeroError
  | transactionError
  | transactionSerializationError
  | transactionDeadlockError
  | unknownDatabaseError
  | executionError
  | duplicateDatabaseDefinitionError
  | invalidLinkTargetError
  | otherError (name : String)
deriving DecidableEq, Repr

/-- A constructed domain error: class, message, details, hint.  The
set_linecol decoration of generic errors is presentational and not
modelled. -/
structure ErrObj where
  cls : ErrClass
  message : String
  details : Option String
  hint : Option String
deriving DecidableEq, Repr

/-- The JSON detail payload, already parsed: the embedded error-class
code resolved through get_error_class_from_code (none when the code key
is absent or unknown), and the keys the translator reads. -/
structure DetailJson where
  errcls : Option ErrClass
  hint : Option String
  objectId : Option String
  source : Option String
  pointer : Option String
  target : Option String
  expected : Option String
deriving DecidableEq, Repr

/-- A backend error field map (protocol fields M, C, D, s, t, c, n). -/
structure ErrorFields where
  message : String
  code : String
  detail : Option String
  detailJson : Option DetailJson
  schemaName : Option String
  tableName : Option String
  columnName : Option String
  constraintName : Option String
deriving DecidableEq, Repr

/-- Embeds `ErrorDetails` (errormech.py lines 54-63). -/
structure ErrorDetails where
  message : String
  detail : Option String
  detailJson : Option DetailJson
  code : Option String
  schemaName : Option String
  tableName : Option String
  columnName : Option String
  constraintName : Option String
  errcls : Option ErrClass
deriving DecidableEq, Repr

/-- Python string truthiness of an optional field: present and
non-empty. -/
def optTruthy : Option String → Bool
  | some s => s ≠ ""
  | none => false

/-- Embeds `get_error_details(fields)` (errormech.py lines 125-158): when the
JSON detail payload resolves an embedded error class, return the
short-circuit details (code and name fields left unset); otherwise the
full field map. -/
def get_error_details (f : ErrorFields) : ErrorDetails :=
  match f.detailJson with
  | some dj =>
      match dj.errcls with
      | some cls =>
          ⟨f.message, none, some dj, none, none, none, none, none, some cls⟩
      | none =>
          ⟨f.message, f.detail, f.detailJson, some f.code, f.schemaName,
           f.tableName, f.columnName, f.constraintName, none⟩
  | none =>
      ⟨f.message, f.detail, f.detailJson, some f.code, f.schemaName,
       f.tableName, f.columnName, f.constraintName, none⟩

/-- Embeds `get_generic_exception_from_err_details` (errormech.py lines
161-169). -/
def get_generic_exception_from_err_details (d : ErrorDetails) : Option ErrObj :=
  match d.errcls with
  | some cls => some ⟨cls, d.message, none, none⟩
  | none => none

/-- The seven constraint-message categories of `constraint_res`
(errormech.py lines 77-87), in dict insertion order. -/
inductive ConstraintErrType where
  | cardinality
  | linkTarget
  | constraintC
  | newconstraint
  | idC
  | linkTargetDel
  | scalarC
deriving DecidableEq, Repr

def isWordChar (c : Char) : Bool := c.isAlphanum || c = '_'

def listStartsWith : List Char → List Char → Bool
  | _, [] => true
  | [], _ :: _ => false
  | c :: cs, p :: ps => c = p && listStartsWith cs ps

def listContains : List Char → List Char → Bool
  | [], needle => needle.isEmpty
  | c :: rest, needle => listStartsWith (c :: rest) needle || listContains rest needle

def listEndsWith (l needle : List Char) : Bool :=
  listStartsWith l.reverse needle.reverse

def strEndsWith (s pat : String) : Bool := listEndsWith s.toList pat.toList

def strStartsWith (s pat : String) : Bool := listStartsWith s.toList pat.toList

/-- Matcher for `^.*".*_cardinality_idx".*$`: a double quote strictly
before an occurrence of the literal. -/
def quoteThen (needle : List Char) : List Char → Bool → Bool
  | [], _ => false
  | c :: rest, seenQuote =>
      (seenQuote && listStartsWith (c :: rest) needle) ||
      quoteThen needle rest (seenQuote || c = '"')

def cardinalityMatch (msg : String) : Bool :=
  quoteThen ("_cardinality_idx".toList ++ ['"']) msg.toList false

/-- Matcher for the `(?:#\d+)?"` tail of the schemaconstr pattern. -/
def digitsThenQuote : List Char → Nat → Bool
  | [], _ => false
  | c :: rest, n => if c = '"' then n ≥ 1 else c.isDigit && digitsThenQuote rest (n + 1)

def afterSchemaconstr : List Char → Bool
  | '"' :: _ => true
  | '#' :: rest => digitsThenQuote rest 0
  | _ => false

/-- Matcher for `^.*;schemaconstr(?:#\d+)?".*$`. -/
def schemaconstrScan : List Char → Bool
  | [] => false
  | c :: rest =>
      (listStartsWith (c :: rest) ";schemaconstr".toList &&
        afterSchemaconstr ((c :: rest).drop 13)) ||
      schemaconstrScan rest

/-- Matcher for `\w+` followed by a literal: at least one word char then
the needle. -/
def wordThen (needle : List Char) : List Char → Nat → Bool
  | l, n =>
      (n ≥ 1 && listStartsWith l needle) ||
      (match l with
       | c :: rest => isWordChar c && wordThen needle rest (n + 1)
       | [] => false)

/-- Matcher for `^.*"(?:\w+)_data_pkey".*$`. -/
def idScan : List Char → Bool
  | [] => false
  | c :: rest => (c = '"' && wordThen ("_data_pkey".toList ++ ['"']) rest 0) || idScan rest

/-- Matcher for a closing quote after at least one character
(the `(.+)"` tail of the scalar pattern). -/
def closingQuote : List Char → Nat → Bool
  | [], _ => false
  | c :: rest, n => (c = '"' && n ≥ 1) || closingQuote rest (n + 1)

def scalarMid : List Char := " violates check constraint ".toList ++ ['"']

/-- Matcher for `\w+` then the scalar middle literal then `(.+)"`. -/
def scalarAfterDomain : List Char → Nat → Bool
  | l, n =>
      (n ≥ 1 && listStartsWith l scalarMid &&
        closingQuote (l.drop scalarMid.length) 0) ||
      (match l with
       | c :: rest => isWordChar c && scalarAfterDomain rest (n + 1)
       | [] => false)

/-- Matcher for
`^value for domain (\w+) violates check constraint "(.+)"`. -/
def scalarMatch (msg : String) : Bool :=
  listStartsWith msg.toList "value for domain ".toList &&
  scalarAfterDomain (msg.toList.drop 17) 0

/-- The `constraint_res` match loop shared by the two interpreters
(errormech.py lines 189-193 and 373-378), in dict insertion order. -/
def matchConstraintType (msg : String) : Option ConstraintErrType :=
  if cardinalityMatch msg then some .cardinality
  else if strEndsWith msg "link target constraint" then some .linkTarget
  else if schemaconstrScan msg.toList then some .constraintC
  else if listContains msg.toList "violate the new constraint".toList then some .newconstraint
  else if idScan msg.toList then some .idC
  else if strEndsWith msg "link target policy" then some .linkTargetDel
  else if scalarMatch msg then some .scalarC
  else none

/-- The result of the schema-free pass: the SchemaRequired sentinel or a
constructed error. -/
inductive StaticResult where
  | schemaRequired
  | err (e : ErrObj)
deriving DecidableEq, Repr

def iseOf (msg : String) : StaticResult :=
  .err ⟨.internalServerError, msg, none, none⟩

/-- Embeds `constraint_name.rpartition(...)` on a semicolon: the part before the last
semicolon (empty when there is none). -/
def beforeLastSemicolon (s : String) : String :=
  String.mk (((s.toList.reverse.dropWhile fun c => c ≠ ';').drop 1).reverse)

/-- Whether the candidate constraint id parses as a UUID
(`uuidgen.UUID(constraint_id)`, ValueError otherwise): modelled as the
32-hex-digit-with-hyphens shape of the canonical form. -/
def parsesAsUuid (s : String) : Bool :=
  s.toList.length = 36 &&
  (s.toList.enum.all fun (i, c) =>
    if i = 8 || i = 13 || i = 18 || i = 23 then c = '-' else (c.isDigit || ('a' ≤ c && c ≤ 'f') || ('A' ≤ c && c ≤ 'F')))

/-- The link_target message construction (errormech.py lines 203-224);
QualName.from_string and repr quoting are modelled by splicing the raw
strings. -/
def linkTargetMessage (dj : DetailJson) : String :=
  if optTruthy dj.source && optTruthy dj.pointer then
    let srcname := dj.source.getD ""
    let ptrname := dj.pointer.getD ""
    let lname := srcname ++ "." ++ shortName ptrname
    "invalid target for link " ++ lname ++ ": " ++ dj.target.getD "None" ++
      " (expecting " ++ dj.expected.getD "None" ++ ")"
  else
    "invalid target for link : " ++ dj.target.getD "None" ++
      " (expecting " ++ dj.expected.getD "None" ++ ")"

/-- Embeds `static_interpret_backend_error(fields)` (errormech.py lines
172-330). -/
def static_interpret_backend_error (f : ErrorFields) : StaticResult :=
  let d := get_error_details f
  match get_generic_exception_from_err_details d with
  | some e => .err e
  | none =>
    if d.code = some ERROR_NOT_NULL_VIOLATION then
      if optTruthy d.tableName || optTruthy d.columnName then .schemaRequired
      else iseOf d.message
    else if (d.code.map fun c => constraint_errors.contains c).getD false then
      match matchConstraintType d.message with
      | none => iseOf d.message
      | some .cardinality =>
          .err ⟨.cardinalityViolationError, "cardinality violation", none, none⟩
      | some .linkTarget =>
          match d.detailJson with
          | some dj => .err ⟨.unknownLinkError, linkTargetMessage dj, none, none⟩
          | none => .err ⟨.unknownLinkError, "invalid target for link", none, none⟩
      | some .linkTargetDel =>
          .err ⟨.constraintViolationError, d.message, d.detail, none⟩
      | some .constraintC =>
          match d.constraintName with
          | none => iseOf d.message
          | some cn =>
              if parsesAsUuid (beforeLastSemicolon cn) then .schemaRequired
              else iseOf d.message
      | some .newconstraint =>
          if optTruthy d.schemaName && optTruthy d.tableName && optTruthy d.columnName then
            .schemaRequired
          else iseOf d.message
      | some .scalarC => .schemaRequired
      | some .idC =>
          .err ⟨.constraintViolationError, "unique link constraint violation", none, none⟩
    else if (d.code.map fun c => SCHEMA_CODES.contains c).getD false then
      if d.code = some ERROR_INVALID_DATETIME_FORMAT then
        let hint := (d.detailJson.bind fun dj => dj.hint)
        if strStartsWith d.message "missing required time zone" then
          .err ⟨.invalidValueError, d.message, none, hint⟩
        else if strStartsWith d.message "unexpected time zone" then
          .err ⟨.invalidValueError, d.message, none, hint⟩
        else .schemaRequired
      else .schemaRequired
    else if d.code = some ERROR_INVALID_PARAMETER_VALUE then
      .err ⟨.invalidValueError, d.message,
        (if optTruthy d.detail then d.detail else none), none⟩
    else if d.code = some ERROR_WRONG_OBJECT_TYPE then
      if optTruthy d.columnName then .schemaRequired
      else .err ⟨.invalidValueError, d.message,
        (if optTruthy d.detail then d.detail else none), none⟩
    else if d.code = some ERROR_DIVISION_BY_ZERO then
      .err ⟨.divisionByZeroError, d.message, none, none⟩
    else if d.code = some ERROR_INTERVAL_FIELD_OVERFLOW then
      .err ⟨.numericOutOfRangeError, d.message, none, none⟩
    else if d.code = some ERROR_READ_ONLY_SQL_TRANSACTION then
      .err ⟨.transactionError, "cannot execute query in a read-only transaction", none, none⟩
    else if d.code = some ERROR_SERIALIZATION_FAILURE then
      .err ⟨.transactionSerializationError, d.message, none, none⟩
    else if d.code = some ERROR_DEADLOCK_DETECTED then
      .err ⟨.transactionDeadlockError, d.message, none, none⟩
    else if d.code = some ERROR_INVALID_CATALOG_NAME then
      .err ⟨.unknownDatabaseError, d.message, none, none⟩
    else if d.code = some ERROR_OBJECT_IN_USE then
      .err ⟨.executionError, d.message, none, none⟩
    else if d.code = some ERROR_DUPLICATE_DATABASE then
      .err ⟨.duplicateDatabaseDefinitionError, d.message, none, none⟩
    else if d.code = some ERROR_CARDINALITY_VIOLATION &&
        (d.constraintName = some "std::assert_single" ||
         d.constraintName = some "std::assert_exists") then
      .err ⟨.cardinalityViolationError, d.message, none, none⟩
    else if d.code = some ERROR_CARDINALITY_VIOLATION &&
        d.constraintName = some "std::assert_distinct" then
      .err ⟨.constraintViolationError, d.message, none, none⟩
    else iseOf d.message

/-- Embeds `range_constraints` (errormech.py lines 90-94). -/
def range_constraints : List String :=
  ["timestamptz_t_check", "timestamp_t_check", "date_t_check"]

/-- Modelled from the spec: `types.base_type_name_map_r`
(edb/pgsql/types.py is not under src/); a few representative entries of
the backend-name to std-name reverse map. -/
def base_type_name_map_r : List (String × String) :=
  [("text", "std::str"), ("int8", "std::int64"), ("int4", "std::int32"),
   ("timestamptz_t", "std::datetime"), ("timestamp_t", "cal::local_datetime"),
   ("date_t", "cal::local_date")]

/-- Group 1 of the scalar constraint pattern: the domain word after the
prefix (greedy word run; the embedding takes the maximal run). -/
def scalarGroup1 (msg : String) : String :=
  String.mk ((msg.toList.drop 17).takeWhile isWordChar)

def beforeLastQuote (l : List Char) : List Char :=
  (((l.reverse.dropWhile fun c => c ≠ '"').drop 1)).reverse

/-- Group 2 of the scalar constraint pattern: the quoted constraint name
(greedy `(.+)` up to the last closing quote). -/
def scalarGroup2 (msg : String) : String :=
  String.mk (beforeLastQuote
    (msg.toList.drop (17 + (scalarGroup1 msg).toList.length + scalarMid.length)))

/-- The schema lookups the schema-aware pass performs
(pgsql/common.get_object_from_backend_name and the schema object
accessors are not under src/; modelled from the spec as resolved name
functions over backend identifiers). -/
structure Schema where
  getPtrVerbose : String → String
  getConstraintMessage : String → String
  getObjDisplay : String → String → String
  getPtrShort : String → String
  translatePgtype : String → String
  ptrVerboseById : String → String
  objNameById : String → String
  ptrTargetNameById : String → String

def iseObj (msg : String) : ErrObj := ⟨.internalServerError, msg, none, none⟩

/-- The `??`-prefixed column-name decoding of the not-null branch
(errormech.py lines 344-348): strip the marker and keep the part before
the first underscore; otherwise the column name itself. -/
def extractPtrId (c : String) : String :=
  if listStartsWith c.toList "??".toList then
    String.mk ((c.toList.drop 2).takeWhile fun ch => ch ≠ '_')
  else c

/-- Embeds `interpret_backend_error(schema, fields)` (errormech.py lines
333-444): the schema-aware pass. -/
def interpret_backend_error (sch : Schema) (f : ErrorFields) : ErrObj :=
  let d := get_error_details f
  let hint := d.detailJson.bind fun dj => dj.hint
  if d.code = some ERROR_NOT_NULL_VIOLATION then
    if optTruthy d.columnName then
      let ptr_id := extractPtrId (d.columnName.getD "")
      let pname := sch.getPtrVerbose ptr_id
      let details :=
        match d.detailJson.bind fun dj => dj.objectId with
        | some oid => some ("Failing object id is " ++ oid ++ ".")
        | none => none
      ⟨.missingRequiredError, "missing value for required " ++ pname, details, hint⟩
    else iseObj d.message
  else if (d.code.map fun c => constraint_errors.contains c).getD false then
    match matchConstraintType d.message with
    | some .constraintC =>
        let constraint_id := beforeLastSemicolon (d.constraintName.getD "")
        ⟨.constraintViolationError, sch.getConstraintMessage constraint_id, none, none⟩
    | some .newconstraint =>
        let source_name := sch.getObjDisplay (d.schemaName.getD "") (d.tableName.getD "")
        let pointer_name := sch.getPtrShort (d.columnName.getD "")
        ⟨.constraintViolationError,
          "Existing " ++ source_name ++ "." ++ pointer_name ++
            " values violate the new constraint", none, none⟩
    | some .scalarC =>
        let domain_name := scalarGroup1 d.message
        match base_type_name_map_r.lookup domain_name with
        | some stype_name =>
            if range_constraints.contains (scalarGroup2 d.message) then
              ⟨.invalidValueError, stype_name ++ " value out of range", none, none⟩
            else
              ⟨.invalidValueError, "invalid value for scalar type " ++ stype_name,
                none, none⟩
        | none => ⟨.invalidValueError, sch.translatePgtype d.message, none, none⟩
    | _ => iseObj d.message
  else if d.code = some ERROR_INVALID_TEXT_REPRESENTATION then
    ⟨.invalidValueError, sch.translatePgtype d.message, none, none⟩
  else if d.code = some ERROR_NUMERIC_VALUE_OUT_OF_RANGE then
    ⟨.numericOutOfRangeError, sch.translatePgtype d.message, none, none⟩
  else if d.code = some ERROR_INVALID_DATETIME_FORMAT ||
      d.code = some ERROR_DATETIME_FIELD_OVERFLOW then
    ⟨.invalidValueError, sch.translatePgtype d.message, none, hint⟩
  else if d.code = some ERROR_WRONG_OBJECT_TYPE && d.message = "covariance error" then
    ⟨.invalidLinkTargetError,
      "invalid target for " ++ sch.ptrVerboseById (d.columnName.getD "") ++ ": " ++
        sch.objNameById (d.tableName.getD "") ++ " (expecting " ++
        sch.ptrTargetNameById (d.columnName.getD "") ++ ")", none, none⟩
  else iseObj d.message

/-!
Concrete data used by the closed instantiations below.
-/

/-- An inference environment with no recorded set types, a fixed
original path id for every set, and an empty memo table. -/
def envW : Env := ⟨fun _ => none, fun _ => ⟨⟨"default", "x"⟩, ["ns0"], none⟩, []⟩

/-- A schema resolving every backend pointer name to a fixed verbose
name. -/
def schW : Schema :=
  ⟨fun p => "property " ++ p ++ " of object type default::T", fun _ => "",
   fun _ _ => "", fun _ => "", fun m => m, fun _ => "", fun _ => "", fun _ => ""⟩

/-- All SQLSTATE codes the static interpreter dispatches on. -/
def recognizedCodes : List String :=
  [ERROR_NOT_NULL_VIOLATION] ++ constraint_errors ++ SCHEMA_CODES ++
  [ERROR_INVALID_PARAMETER_VALUE, ERROR_WRONG_OBJECT_TYPE,
   ERROR_DIVISION_BY_ZERO, ERROR_INTERVAL_FIELD_OVERFLOW,
   ERROR_READ_ONLY_SQL_TRANSACTION, ERROR_SERIALIZATION_FAILURE,
   ERROR_DEADLOCK_DETECTED, ERROR_INVALID_CATALOG_NAME,
   ERROR_OBJECT_IN_USE, ERROR_DUPLICATE_DATABASE,
   ERROR_CARDINALITY_VIOLATION]

/-- Counterexample schema for the inhview batching: source 0 has a
table and one ancestor 1 that has no table. -/
def schC8 : InhSchema := ⟨fun n => if n = 0 then [1] else [], fun n => n == 0⟩

/-- Whether a view operation is a CREATE VIEW (plain or OR REPLACE) for
the given source. -/
def isCreateViewOf (t : Nat) : ViewOp → Bool
  | .createView s _ => s == t
  | _ => false

/-- The environment is unchanged (set types and path ids) at every set
uid outside `us`. -/
def preservesOutside (us : List Nat) (env env' : Env) : Prop :=
  ∀ u, u ∉ us → env'.set_types u = env.set_types u ∧ env'.pathIds u = env.pathIds u

/-- The memo table is unchanged on Set nodes whose uid is outside
`us`. -/
def memoSetPreserves (us : List Nat) (env env' : Env) : Prop :=
  ∀ uid emp, uid ∉ us →
    lookupMemo env'.inferred (.setE uid emp) = lookupMemo env.inferred (.setE uid emp)

/-- An inference callback only touches the sets of its argument. -/
def InferOk (it : InferFn) : Prop :=
  ∀ e env t env', it e env = .ok (t, env') →
    preservesOutside (exprUids e) env env' ∧ memoSetPreserves (exprUids e) env env'

/-!
Helper lemmas.
-/

theorem except_bind_ok {α β ε : Type} (a : α) (f : α → Except ε β) :
    (Except.ok a >>= f) = f a := rfl

theorem except_bind_err {α β ε : Type} (e : ε) (f : α → Except ε β) :
    ((Except.error e : Except ε α) >>= f) = Except.error e := rfl

theorem except_pure {α ε : Type} (a : α) : (pure a : Except ε α) = Except.ok a := rfl

theorem enumAddValueLoop_nil_old (tn : String) (rest : List String) :
    enumAddValueLoop tn rest [] =
      rest.map (fun v => EnumOp.alterEnumAddValue tn v none) := by
  induction rest with
  | nil => rfl
  | cons v vs ih => simp [enumAddValueLoop, ih]

theorem enumAddValueLoop_front_match (tn : String) (old rest : List String) :
    enumAddValueLoop tn (old ++ rest) old = enumAddValueLoop tn rest [] := by
  induction old with
  | nil => rfl
  | cons o os ih => simp [enumAddValueLoop, ih]

/-- C1 counterexample input: old values `{A,C}`, new values `{A,B,C}`
(value `B` inserted before `C`). -/
theorem c1_insert_before_counterexample :
    enum_alter_ops "enumt" ["A", "C"] ["A", "B", "C"] =
      [EnumOp.dropEnum "enumt", EnumOp.createEnum "enumt" ["A", "B", "C"]] ∧
    EnumOp.alterEnumAddValue "enumt" "B" (some "C") ∉
      enum_alter_ops "enumt" ["A", "C"] ["A", "B", "C"] ∧
    EnumOp.dropEnum "enumt" ∈ enum_alter_ops "enumt" ["A", "C"] ["A", "B", "C"] := by
  refine ⟨by decide, by decide, by decide⟩

/-- C1 (amended): in-place ALTER TYPE ADD VALUE handling happens exactly
when the old value list is a prefix of the new one, in which case the
trailing new values are appended (without BEFORE) and nothing is
dropped; for every other change of a non-empty value list, the enum is
dropped and recreated. -/
theorem c1_enum_alter_rule (tn : String) (old new : List String)
    (hne : new ≠ []) :
    (old = new.take old.length →
      enum_alter_ops tn old new =
        (new.drop old.length).map (fun v => EnumOp.alterEnumAddValue tn v none)) ∧
    (old ≠ new.take old.length →
      enum_alter_ops tn old new = [EnumOp.dropEnum tn, EnumOp.createEnum tn new]) := by
  constructor
  · intro hpre
    have hrec : needs_recreate old new = false := by
      simp [needs_recreate]
      intro _
      exact hpre
    by_cases hON : old = new
    · subst hON
      simp [enum_alter_ops, hne, hrec]
    · have hsplit : old ++ new.drop old.length = new := by
        conv_rhs => rw [← List.take_append_drop old.length new, ← hpre]
      simp only [enum_alter_ops, List.isEmpty_eq_true, hne, if_false, hrec,
        Bool.false_eq_true, ne_eq, hON, not_false_eq_true, if_true]
      rw [← hsplit, enumAddValueLoop_front_match, enumAddValueLoop_nil_old]
      simp [hsplit]
  · intro hnpre
    have hON : old ≠ new := by
      intro h
      subst h
      exact hnpre (List.take_length old).symm
    have hrec : needs_recreate old new = true := by
      simp [needs_recreate, hON, hnpre]
    simp [enum_alter_ops, hne, hrec]

/-- C1 witness: appending `B` to `{A}` stays in place. -/
theorem c1_enum_alter_rule_witness :
    (["A", "B"] : List String) ≠ [] ∧
    (["A"] : List String) = ["A", "B"].take 1 ∧
    enum_alter_ops "t" ["A"] ["A", "B"] = [EnumOp.alterEnumAddValue "t" "B" none] := by
  refine ⟨by decide, by decide, ?_⟩
  exact (c1_enum_alter_rule "t" ["A"] ["A", "B"] (by decide)).1 (by decide)

/-- C4: calling `_infer_common_type` with an empty argument list raises
IndexError (from evaluating `irs[0].context` while building the
QueryError), not the QueryError itself. -/
theorem c4_empty_call_raises_index_error (fuel : Nat) (env : Env) :
    _infer_common_type fuel [] env = .error .indexError := rfl

/-- C6: inference is memoized and stable: once `infer_type` has produced
a type for a node, re-running it on the resulting environment returns
the same type and leaves the environment unchanged (and, the embedding
being functional, any two runs from equal environments agree). -/
theorem c6_infer_type_deterministic (fuel fuel2 : Nat) (e : Expr) (env : Env)
    (t : SType) (env' : Env) (h : infer_type fuel e env = .ok (t, env')) :
    infer_type (fuel2 + 1) e env' = .ok (t, env') := by
  cases fuel with
  | zero => exact absurd h (by simp [infer_type])
  | succ f =>
    rw [infer_type] at h
    cases hm : lookupMemo env.inferred e with
    | some t0 =>
      rw [hm] at h
      have ht : t0 = t ∧ env = env' := by
        have := h
        simp [except_pure] at this
        exact ⟨this.1, this.2⟩
      obtain ⟨ht0, henv⟩ := ht
      subst ht0
      subst henv
      rw [infer_type, hm]
      rfl
    | none =>
      rw [hm] at h
      cases hd : infer_dispatch (infer_type f) e env with
      | error er => rw [hd] at h; exact absurd h (by simp)
      | ok out =>
        obtain ⟨opt, env1⟩ := out
        rw [hd] at h
        cases opt with
        | none => exact absurd h (by simp)
        | some t1 =>
          simp [except_pure] at h
          obtain ⟨ht1, henv⟩ := h
          subst ht1
          rw [infer_type]
          rw [← henv]
          simp only [lookupMemo, if_pos rfl]
          rfl

/-- C6 witness: inferring a constant twice. -/
theorem c6_infer_type_deterministic_witness :
    infer_type 1 (.constE stdStr) envW =
      .ok (stdStr, { envW with inferred := [(.constE stdStr, stdStr)] }) ∧
    infer_type 2 (.constE stdStr) { envW with inferred := [(.constE stdStr, stdStr)] } =
      .ok (stdStr, { envW with inferred := [(.constE stdStr, stdStr)] }) := by
  refine ⟨rfl, ?_⟩
  exact c6_infer_type_deterministic 1 1 _ envW stdStr _ rfl

/-- C3: the binary-operand harmonizer.  If exactly one operand is an
EmptySet, that operand is amended to the inferred type of the other
operand and both returned types equal it; if both operands are
EmptySets, a QueryError with the stated message is raised; and the
TypeCheckOp rule feeds the operands through the harmonizer and returns
std::bool. -/
theorem c3_binop_harmonizer (fuel : Nat) (l r : Expr) (env : Env) :
    (∀ uid t env1, l = .setE uid true → isEmptySetE r = false →
      infer_type fuel r env = .ok (t, env1) →
      infer_binop_args (infer_type fuel) l r env =
        .ok ((t, t), amend_empty_set_type uid t env1) ∧
      (amend_empty_set_type uid t env1).set_types uid = some t) ∧
    (∀ uid t env1, r = .setE uid true → isEmptySetE l = false →
      infer_type fuel l env = .ok (t, env1) →
      infer_binop_args (infer_type fuel) l r env =
        .ok ((t, t), amend_empty_set_type uid t env1) ∧
      (amend_empty_set_type uid t env1).set_types uid = some t) ∧
    (isEmptySetE l = true → isEmptySetE r = true →
      infer_binop_args (infer_type fuel) l r env =
        .error (.queryError "cannot determine the type of an empty set")) ∧
    (∀ res env2, infer_binop_args (infer_type fuel) l r env = .ok (res, env2) →
      infer_dispatch (infer_type fuel) (.typeCheckOp l r) env =
        .ok (some stdBool, env2)) := by
  refine ⟨?_, ?_, ?_, ?_⟩
  · intro uid t env1 hl hr hir
    subst hl
    constructor
    · simp [infer_binop_args, isEmptySetE, hr, hir, except_bind_ok, except_pure, uidOf]
      exact hr
    · simp [amend_empty_set_type]
  · intro uid t env1 hr hl hil
    subst hr
    constructor
    · simp [infer_binop_args, isEmptySetE, hl, hil, except_bind_ok, except_pure, uidOf]
      exact hl
    · simp [amend_empty_set_type]
  · intro hl hr
    simp [infer_binop_args, hl, hr, except_bind_ok, except_pure]
    rfl
  · intro res env2 hargs
    simp [infer_dispatch, hargs, except_bind_ok, except_pure]

/-- C3 witness: an EmptySet meets an int64 constant, then two
EmptySets. -/
theorem c3_binop_harmonizer_witness :
    infer_type 1 (.constE stdInt64) envW =
      .ok (stdInt64, { envW with inferred := [(.constE stdInt64, stdInt64)] }) ∧
    infer_binop_args (infer_type 1) (.setE 0 true) (.constE stdInt64) envW =
      .ok ((stdInt64, stdInt64),
        amend_empty_set_type 0 stdInt64
          { envW with inferred := [(.constE stdInt64, stdInt64)] }) ∧
    (amend_empty_set_type 0 stdInt64
        { envW with inferred := [(.constE stdInt64, stdInt64)] }).set_types 0 =
      some stdInt64 ∧
    infer_binop_args (infer_type 1) (.setE 0 true) (.setE 1 true) envW =
      .error (.queryError "cannot determine the type of an empty set") := by
  refine ⟨rfl, ?_, ?_, ?_⟩
  · exact ((c3_binop_harmonizer 1 (.setE 0 true) (.constE stdInt64) envW).1
      0 stdInt64 _ rfl rfl rfl).1
  · exact ((c3_binop_harmonizer 1 (.setE 0 true) (.constE stdInt64) envW).1
      0 stdInt64 _ rfl rfl rfl).2
  · exact (c3_binop_harmonizer 1 (.setE 0 true) (.setE 1 true) envW).2.2.1 rfl rfl

/-- C5: the per-operand indexing rule.  A json-typed operand with an
index implicitly castable to int64 or str yields json; an Array<T>
operand with an int64-castable index yields the element type T; a
bytes operand with a str index raises a QueryError. -/
theorem c5_index_indirection_rules (fuel : Nat) (e i : Expr)
    (env env1 env2 : Env) (ti : SType) :
    (infer_type fuel e env = .ok (stdJson, env1) →
      infer_type fuel i env1 = .ok (ti, env2) →
      (implicitly_castable_to ti stdInt64 || implicitly_castable_to ti stdStr) = true →
      infer_index (infer_type fuel) e i env = .ok (some stdJson, env2)) ∧
    (∀ T, infer_type fuel e env = .ok (.array T, env1) →
      infer_type fuel i env1 = .ok (ti, env2) →
      implicitly_castable_to ti stdInt64 = true →
      infer_index (infer_type fuel) e i env = .ok (some T, env2)) ∧
    (infer_type fuel e env = .ok (stdBytes, env1) →
      infer_type fuel i env1 = .ok (stdStr, env2) →
      infer_index (infer_type fuel) e i env =
        .error (.queryError "cannot index bytes by str, int64 was expected")) := by
  refine ⟨?_, ?_, ?_⟩
  · intro he hi hcast
    rcases Bool.or_eq_true_iff.mp hcast with hc | hc
    · simp [infer_index, he, hi, except_bind_ok, except_pure,
        stype_issubclass, stdJson, stdStr, stdBytes, hc]
    · simp [infer_index, he, hi, except_bind_ok, except_pure,
        stype_issubclass, stdJson, stdStr, stdBytes, hc]
      intro _
      exact hc
  · intro T he hi hcast
    simp [infer_index, he, hi, except_bind_ok, except_pure,
      stype_issubclass, stdJson, stdStr, stdBytes, hcast]
  · intro he hi
    have hcast : implicitly_castable_to stdStr stdInt64 = false := by decide
    simp [infer_index, he, hi, except_bind_ok, except_pure,
      stype_issubclass, stdJson, stdStr, stdBytes, stdInt64, hcast]
    rfl

/-- C5 witness: json indexed by a str constant, Array<int64> indexed by
an int64 constant, bytes indexed by a str constant. -/
theorem c5_index_indirection_rules_witness :
    (infer_index (infer_type 1) (.constE stdJson) (.constE stdStr) envW =
      .ok (some stdJson,
        { envW with inferred := [(.constE stdStr, stdStr), (.constE stdJson, stdJson)] })) ∧
    (infer_index (infer_type 1) (.constE (.array stdInt64)) (.constE stdInt64) envW =
      .ok (some stdInt64,
        { envW with inferred :=
          [(.constE stdInt64, stdInt64), (.constE (.array stdInt64), .array stdInt64)] })) ∧
    (infer_index (infer_type 1) (.constE stdBytes) (.constE stdStr) envW =
      .error (.queryError "cannot index bytes by str, int64 was expected")) := by
  refine ⟨?_, ?_, ?_⟩
  · exact (c5_index_indirection_rules 1 (.constE stdJson) (.constE stdStr) envW _ _
      stdStr).1 rfl rfl (by decide)
  · exact (c5_index_indirection_rules 1 (.constE (.array stdInt64)) (.constE stdInt64)
      envW _ _ stdInt64).2.1 stdInt64 rfl rfl (by decide)
  · exact (c5_index_indirection_rules 1 (.constE stdBytes) (.constE stdStr) envW _ _
      stdStr).2.2 rfl rfl

theorem option_bind_some {α β : Type} (a : α) (f : α → Option β) :
    (some a >>= f) = f a := rfl

theorem mapSumCongr {α : Type} (l : List α) (f g : α → Nat)
    (h : ∀ s ∈ l, f s = g s) : (l.map f).sum = (l.map g).sum := by
  induction l with
  | nil => rfl
  | cons a rest ih =>
    simp only [List.map_cons, List.sum_cons, h a (by simp),
      ih fun s hs => h s (by simp [hs])]

theorem optionMapM_map {α β : Type} (l : List α) (f : α → Option (List β))
    (g : α → List β) (h : ∀ s ∈ l, f s = some (g s)) :
    l.mapM f = some (l.map g) := by
  induction l with
  | nil => rfl
  | cons a rest ih =>
    rw [List.mapM_cons, h a (by simp)]
    rw [ih fun s hs => h s (by simp [hs])]
    rfl

theorem flatten_map_sublist {α β : Type} (l : List α) (f : α → List β) (s : α)
    (hs : s ∈ l) : (f s).Sublist ((l.map f).flatten) := by
  induction l with
  | nil => cases hs
  | cons a rest ih =>
    rcases List.mem_cons.mp hs with h | h
    · subst h
      exact (List.sublist_append_left (f s) ((rest.map f).flatten)).trans (by simp)
    · exact ((ih h).trans
        (List.sublist_append_right (f a) ((rest.map f).flatten))).trans (by simp)

theorem countP_flatten_map {α β : Type} (l : List α) (f : α → List β) (p : β → Bool) :
    ((l.map f).flatten).countP p = (l.map fun s => (f s).countP p).sum := by
  induction l with
  | nil => rfl
  | cons a rest ih => simp [List.countP_append, ih]

theorem sum_ite_not_mem (l : List Nat) (t : Nat) (h : t ∉ l) :
    (l.map fun s => if s = t then 1 else 0).sum = 0 := by
  induction l with
  | nil => rfl
  | cons a rest ih =>
    have ha : a ≠ t := fun he => h (by simp [he])
    simp [ha, ih fun hm => h (by simp [hm])]

theorem sum_ite_nodup (l : List Nat) (t : Nat) (hn : l.Nodup) :
    (l.map fun s => if s = t then 1 else 0).sum ≤ 1 := by
  induction l with
  | nil => simp
  | cons a rest ih =>
    rcases List.nodup_cons.mp hn with ⟨hna, hrest⟩
    by_cases ha : a = t
    · subst ha
      simp [sum_ite_not_mem rest a hna]
    · simpa [ha] using ih hrest

/-- C8 counterexample input: one recorded source (0) whose only ancestor
(1) lacks a backing table; the ancestor is not refreshed at all. -/
theorem c8_tableless_ancestor_counterexample :
    (1 : Nat) ∈ schC8.ancestors 0 ∧ (1 : Nat) ∉ [(0 : Nat)] ∧
    apply_scheduled_inhview_updates schC8 [0] =
      some [ViewOp.dropView 0 true, ViewOp.createView 0 false, ViewOp.commentView 0] ∧
    ViewOp.createView 1 true ∉
      [ViewOp.dropView 0 true, ViewOp.createView 0 false, ViewOp.commentView 0] := by
  refine ⟨by decide, by decide, by decide, by decide⟩

/-- C8 (amended): for a duplicate-free batch of recorded sources, all
having backing tables, every recorded source is recreated via DROP VIEW
followed by CREATE VIEW; every ancestor of a recorded source that is
not itself recorded **and has a backing table** is refreshed with
CREATE OR REPLACE VIEW and never dropped; and each source receives at
most one view (re)creation per batch. -/
theorem c8_inhview_batching (sch : InhSchema) (updates : List Nat)
    (hnodup : updates.Nodup) (htables : ∀ s ∈ updates, sch.hasTable s = true) :
    ∃ ops, apply_scheduled_inhview_updates sch updates = some ops ∧
      (∀ s ∈ updates,
        List.Sublist [ViewOp.dropView s true, ViewOp.createView s false] ops) ∧
      (∀ a, a ∈ updates.flatMap sch.ancestors → a ∉ updates →
        sch.hasTable a = true →
        ViewOp.createView a true ∈ ops ∧ ∀ b, ViewOp.dropView a b ∉ ops) ∧
      (∀ t, ops.countP (isCreateViewOf t) ≤ 1) := by
  by_cases hemp : updates = []
  · subst hemp
    exact ⟨[], by simp [apply_scheduled_inhview_updates], by simp, by simp, by simp⟩
  · have hne : updates.isEmpty = false := by
      cases updates with
      | nil => exact absurd rfl hemp
      | cons a l => rfl
    set ta2 := (((updates.flatMap sch.ancestors).dedup).filter
        fun a => decide (a ∉ updates)).filter sch.hasTable with hta2
    have hrec : updates.mapM (recreate_inhview_ops sch) =
        some (updates.map fun s =>
          [ViewOp.dropView s true, ViewOp.createView s false, ViewOp.commentView s]) := by
      refine optionMapM_map _ _ _ fun s hs => ?_
      simp [recreate_inhview_ops, create_inhview_ops, drop_inhview_ops, htables s hs]
    have halt : ta2.mapM (alter_inhview_ops sch) =
        some (ta2.map fun a => [ViewOp.createView a true, ViewOp.commentView a]) := by
      refine optionMapM_map _ _ _ fun a ha => ?_
      have := (List.mem_filter.mp ha).2
      simp [alter_inhview_ops, this]
    set recOps := (updates.map fun s =>
      [ViewOp.dropView s true, ViewOp.createView s false, ViewOp.commentView s]).flatten
      with hrecOps
    set altOps := (ta2.map fun a => [ViewOp.createView a true, ViewOp.commentView a]).flatten
      with haltOps
    have happly : apply_scheduled_inhview_updates sch updates = some (recOps ++ altOps) := by
      simp only [apply_scheduled_inhview_updates, hne, Bool.false_eq_true, if_false]
      rw [hrec]
      show (some _ >>= _ : Option (List ViewOp)) = _
      rw [option_bind_some]
      rw [← hta2, halt]
      show (some _ >>= _ : Option (List ViewOp)) = _
      rw [option_bind_some]
      rfl
    refine ⟨recOps ++ altOps, happly, ?_, ?_, ?_⟩
    · intro s hs
      have h1 : List.Sublist [ViewOp.dropView s true, ViewOp.createView s false]
          [ViewOp.dropView s true, ViewOp.createView s false, ViewOp.commentView s] := by
        exact ((List.nil_sublist [ViewOp.commentView s]).cons₂
          (ViewOp.createView s false)).cons₂ (ViewOp.dropView s true)
      have h2 := flatten_map_sublist updates
        (fun s => [ViewOp.dropView s true, ViewOp.createView s false, ViewOp.commentView s])
        s hs
      exact (h1.trans h2).trans (List.sublist_append_left recOps altOps)
    · intro a hanc hnotrec htab
      have hmem : a ∈ ta2 := by
        rw [hta2]
        refine List.mem_filter.mpr ⟨List.mem_filter.mpr ⟨List.mem_dedup.mpr hanc, ?_⟩, htab⟩
        simpa using hnotrec
      constructor
      · refine List.mem_append.mpr (Or.inr ?_)
        rw [haltOps]
        simp only [List.mem_flatten, List.mem_map]
        exact ⟨[ViewOp.createView a true, ViewOp.commentView a], ⟨a, hmem, rfl⟩, by simp⟩
      · intro b hdrop
        rcases List.mem_append.mp hdrop with hin | hin
        · rw [hrecOps] at hin
          simp only [List.mem_flatten, List.mem_map] at hin
          obtain ⟨l, ⟨s, hsmem, hleq⟩, hopin⟩ := hin
          subst hleq
          simp only [List.mem_cons, List.not_mem_nil] at hopin
          rcases hopin with h | h | h | h
          · cases h
            exact hnotrec hsmem
          · cases h
          · cases h
          · cases h
        · rw [haltOps] at hin
          simp only [List.mem_flatten, List.mem_map] at hin
          obtain ⟨l, ⟨a2, _, hleq⟩, hopin⟩ := hin
          subst hleq
          simp at hopin
    · intro t
      have hta2nodup : ta2.Nodup := by
        rw [hta2]
        exact ((List.nodup_dedup _).filter _).filter _
      have hcount1 : recOps.countP (isCreateViewOf t) =
          (updates.map fun s => if s = t then 1 else 0).sum := by
        rw [hrecOps, countP_flatten_map]
        refine mapSumCongr _ _ _ fun s _ => ?_
        by_cases hst : s = t
        · subst hst
          simp [List.countP, List.countP.go, isCreateViewOf]
        · have hbe : (s == t) = false := by simp [hst]
          simp [List.countP, List.countP.go, isCreateViewOf, hbe, hst]
      have hcount2 : altOps.countP (isCreateViewOf t) =
          (ta2.map fun a => if a = t then 1 else 0).sum := by
        rw [haltOps, countP_flatten_map]
        refine mapSumCongr _ _ _ fun a _ => ?_
        by_cases hat : a = t
        · subst hat
          simp [List.countP, List.countP.go, isCreateViewOf]
        · have hbe : (a == t) = false := by simp [hat]
          simp [List.countP, List.countP.go, isCreateViewOf, hbe, hat]
      rw [List.countP_append, hcount1, hcount2]
      by_cases hmem : t ∈ updates
      · have hnot2 : t ∉ ta2 := by
          rw [hta2]
          intro hin
          have := (List.mem_filter.mp (List.mem_filter.mp hin).1).2
          simp at this
          exact this hmem
        rw [sum_ite_not_mem ta2 t hnot2]
        simpa using sum_ite_nodup updates t hnodup
      · rw [sum_ite_not_mem updates t hmem]
        simpa using sum_ite_nodup ta2 t hta2nodup

/-- C8 witness: two recorded sources with a shared tabled ancestor. -/
theorem c8_inhview_batching_witness :
    ([0, 1] : List Nat).Nodup ∧
    (∀ s ∈ ([0, 1] : List Nat),
      (InhSchema.mk (fun n => if n ≤ 1 then [2] else []) (fun n => n ≤ 2)).hasTable s = true) ∧
    ∃ ops, apply_scheduled_inhview_updates
        (InhSchema.mk (fun n => if n ≤ 1 then [2] else []) (fun n => n ≤ 2)) [0, 1] =
        some ops ∧ ViewOp.createView 2 true ∈ ops := by
  refine ⟨by decide, by decide, ?_⟩
  obtain ⟨ops, h1, _, h3, _⟩ := c8_inhview_batching
    (InhSchema.mk (fun n => if n ≤ 1 then [2] else []) (fun n => n ≤ 2)) [0, 1]
    (by decide) (by decide)
  exact ⟨ops, h1, (h3 2 (by decide) (by decide) (by decide)).1⟩

theorem get_error_details_no_errcls (f : ErrorFields)
    (hgen : (f.detailJson.bind fun dj => dj.errcls) = none) :
    get_error_details f =
      ⟨f.message, f.detail, f.detailJson, some f.code, f.schemaName,
       f.tableName, f.columnName, f.constraintName, none⟩ := by
  cases hdj : f.detailJson with
  | none => simp [get_error_details, hdj]
  | some dj =>
    rw [hdj] at hgen
    simp only [Option.some_bind] at hgen
    simp [get_error_details, hdj, hgen]

/-- C7: the 23502 not-null translation is two-phase.  Absent an embedded
generic error class, the schema-free pass returns SchemaRequired
exactly when the error carries a (non-empty) table_name or column_name
and InternalServerError otherwise; and the schema-aware pass resolves
column_name to a pointer and produces MissingRequiredError with message
`missing value for required <pointer verbose name>`. -/
theorem c7_not_null_two_phase (f : ErrorFields) (sch : Schema)
    (hcode : f.code = ERROR_NOT_NULL_VIOLATION)
    (hgen : (f.detailJson.bind fun dj => dj.errcls) = none) :
    (static_interpret_backend_error f = .schemaRequired ↔
      (optTruthy f.tableName || optTruthy f.columnName) = true) ∧
    ((optTruthy f.tableName || optTruthy f.columnName) = false →
      static_interpret_backend_error f = iseOf f.message) ∧
    (∀ c, f.columnName = some c → c ≠ "" →
      interpret_backend_error sch f =
        ⟨.missingRequiredError,
         "missing value for required " ++ sch.getPtrVerbose (extractPtrId c),
         (match f.detailJson.bind fun dj => dj.objectId with
          | some oid => some ("Failing object id is " ++ oid ++ ".")
          | none => none),
         f.detailJson.bind fun dj => dj.hint⟩) := by
  have hd := get_error_details_no_errcls f hgen
  refine ⟨?_, ?_, ?_⟩
  · cases htv : (optTruthy f.tableName || optTruthy f.columnName) with
    | true =>
      simp only [static_interpret_backend_error, hd,
        get_generic_exception_from_err_details, hcode]
      simp [htv]
    | false =>
      simp only [static_interpret_backend_error, hd,
        get_generic_exception_from_err_details, hcode]
      simp [htv, iseOf]
  · intro htv
    simp only [static_interpret_backend_error, hd,
      get_generic_exception_from_err_details, hcode]
    simp [htv, iseOf]
  · intro c hc hcne
    have htruthy : optTruthy f.columnName = true := by simp [hc, optTruthy, hcne]
    simp only [interpret_backend_error, hd, hcode]
    simp [htruthy, hc]
    intro h
    simp [optTruthy, hcne] at h

/-- C7 witness: a 23502 error with a column name. -/
theorem c7_not_null_two_phase_witness :
    static_interpret_backend_error
      ⟨"null value in column", "23502", none, none, none, some "tbl", some "col", none⟩ =
      .schemaRequired ∧
    interpret_backend_error schW
      ⟨"null value in column", "23502", none, none, none, some "tbl", some "col", none⟩ =
      ⟨.missingRequiredError,
       "missing value for required property col of object type default::T",
       none, none⟩ := by
  constructor
  · exact (c7_not_null_two_phase
      ⟨"null value in column", "23502", none, none, none, some "tbl", some "col", none⟩
      schW rfl rfl).1.mpr (by decide)
  · exact ((c7_not_null_two_phase
      ⟨"null value in column", "23502", none, none, none, some "tbl", some "col", none⟩
      schW rfl rfl).2.2 "col" rfl (by decide)).trans rfl

/-- C10: the schema-free pass is total over field maps with a code: it
yields SchemaRequired or an error object; an unrecognized code (with no
embedded generic class) falls back to InternalServerError carrying the
backend message, as does a constraint-violation code whose message
matches no constraint pattern. -/
theorem c10_static_interpret_total (f : ErrorFields) :
    (static_interpret_backend_error f = .schemaRequired ∨
      ∃ e, static_interpret_backend_error f = .err e) ∧
    ((f.detailJson.bind fun dj => dj.errcls) = none →
      f.code ∉ recognizedCodes →
      static_interpret_backend_error f = iseOf f.message) ∧
    ((f.detailJson.bind fun dj => dj.errcls) = none →
      f.code ∈ constraint_errors → f.code ≠ ERROR_NOT_NULL_VIOLATION →
      matchConstraintType f.message = none →
      static_interpret_backend_error f = iseOf f.message) := by
  refine ⟨?_, ?_, ?_⟩
  · cases h : static_interpret_backend_error f with
    | schemaRequired => exact Or.inl rfl
    | err e => exact Or.inr ⟨e, rfl⟩
  · intro hgen hnot
    have hd := get_error_details_no_errcls f hgen
    have hne : ∀ E, E ∈ recognizedCodes → f.code ≠ E := fun E hE h => hnot (h ▸ hE)
    have hcc : f.code ∉ constraint_errors := fun hmem =>
      absurd (List.mem_append.mpr (Or.inl (List.mem_append.mpr
        (Or.inl (List.mem_append.mpr (Or.inr hmem)))))) hnot
    have hsc : f.code ∉ SCHEMA_CODES := fun hmem =>
      absurd (List.mem_append.mpr (Or.inl (List.mem_append.mpr
        (Or.inr hmem)))) hnot
    simp only [static_interpret_backend_error, hd,
      get_generic_exception_from_err_details]
    simp [hcc, hsc,
      hne ERROR_NOT_NULL_VIOLATION (by decide),
      hne ERROR_INVALID_PARAMETER_VALUE (by decide),
      hne ERROR_WRONG_OBJECT_TYPE (by decide),
      hne ERROR_DIVISION_BY_ZERO (by decide),
      hne ERROR_INTERVAL_FIELD_OVERFLOW (by decide),
      hne ERROR_READ_ONLY_SQL_TRANSACTION (by decide),
      hne ERROR_SERIALIZATION_FAILURE (by decide),
      hne ERROR_DEADLOCK_DETECTED (by decide),
      hne ERROR_INVALID_CATALOG_NAME (by decide),
      hne ERROR_OBJECT_IN_USE (by decide),
      hne ERROR_DUPLICATE_DATABASE (by decide),
      hne ERROR_CARDINALITY_VIOLATION (by decide), iseOf]
  · intro hgen hmemc hnn hmatch
    have hd := get_error_details_no_errcls f hgen
    simp only [static_interpret_backend_error, hd,
      get_generic_exception_from_err_details]
    simp [hnn, hmemc, hmatch, iseOf]

/-- C10 witness: an unrecognized code and an unmatched
constraint-violation message. -/
theorem c10_static_interpret_total_witness :
    static_interpret_backend_error
      ⟨"boom", "XX000", none, none, none, none, none, none⟩ = iseOf "boom" ∧
    static_interpret_backend_error
      ⟨"some backend message", "23503", none, none, none, none, none, none⟩ =
      iseOf "some backend message" := by
  constructor
  · exact (c10_static_interpret_total
      ⟨"boom", "XX000", none, none, none, none, none, none⟩).2.1 rfl (by decide)
  · exact (c10_static_interpret_total
      ⟨"some backend message", "23503", none, none, none, none, none, none⟩).2.2
      rfl (by decide) (by decide) (by decide)

theorem preservesOutside_refl (us : List Nat) (env : Env) :
    preservesOutside us env env := fun _ _ => ⟨rfl, rfl⟩

theorem preservesOutside_mono {us vs : List Nat} {env env' : Env}
    (hsub : ∀ u ∈ us, u ∈ vs) (h : preservesOutside us env env') :
    preservesOutside vs env env' :=
  fun u hu => h u fun hin => hu (hsub u hin)

theorem preservesOutside_trans {us : List Nat} {env env1 env2 : Env}
    (h1 : preservesOutside us env env1) (h2 : preservesOutside us env1 env2) :
    preservesOutside us env env2 :=
  fun u hu => ⟨(h2 u hu).1.trans (h1 u hu).1, (h2 u hu).2.trans (h1 u hu).2⟩

theorem memoSetPreserves_refl (us : List Nat) (env : Env) :
    memoSetPreserves us env env := fun _ _ _ => rfl

theorem memoSetPreserves_mono {us vs : List Nat} {env env' : Env}
    (hsub : ∀ u ∈ us, u ∈ vs) (h : memoSetPreserves us env env') :
    memoSetPreserves vs env env' :=
  fun uid emp hu => h uid emp fun hin => hu (hsub uid hin)

theorem memoSetPreserves_trans {us : List Nat} {env env1 env2 : Env}
    (h1 : memoSetPreserves us env env1) (h2 : memoSetPreserves us env1 env2) :
    memoSetPreserves us env env2 :=
  fun uid emp hu => (h2 uid emp hu).trans (h1 uid emp hu)

theorem memoSetPreserves_of_inferred_eq {us : List Nat} {env env' : Env}
    (h : env'.inferred = env.inferred) : memoSetPreserves us env env' :=
  fun _ _ _ => by rw [h]

theorem amend_set_types_self (uid : Nat) (t : SType) (env : Env) :
    (amend_empty_set_type uid t env).set_types uid = some t := by
  simp [amend_empty_set_type]

theorem amend_pathIds_self (uid : Nat) (t : SType) (env : Env) :
    (amend_empty_set_type uid t env).pathIds uid =
      ⟨⟨"__derived__", (env.pathIds uid).target_name_hint.name⟩,
       (env.pathIds uid).ns, some t⟩ := by
  simp [amend_empty_set_type, PathId.from_type]

theorem amend_preserves (uid : Nat) (t : SType) (env : Env) :
    preservesOutside [uid] env (amend_empty_set_type uid t env) := by
  intro u hu
  have hne : u ≠ uid := by simpa using hu
  simp [amend_empty_set_type, hne]

theorem amend_inferred (uid : Nat) (t : SType) (env : Env) :
    (amend_empty_set_type uid t env).inferred = env.inferred := rfl

theorem amendAll_set_types (es : List Nat) (t : SType) (env : Env) (u : Nat) :
    (amendAll es t env).set_types u =
      if u ∈ es then some t else env.set_types u := by
  induction es generalizing env with
  | nil => simp [amendAll]
  | cons a rest ih =>
    show (amendAll rest t (amend_empty_set_type a t env)).set_types u = _
    rw [ih]
    by_cases hmem : u ∈ rest
    · simp [hmem]
    · by_cases hua : u = a
      · subst hua
        simp [hmem, amend_set_types_self]
      · simp [hmem, hua, amend_empty_set_type]

theorem amendAll_pathIds (es : List Nat) (t : SType) (env : Env) (u : Nat) :
    (amendAll es t env).pathIds u =
      if u ∈ es then
        ⟨⟨"__derived__", (env.pathIds u).target_name_hint.name⟩,
         (env.pathIds u).ns, some t⟩
      else env.pathIds u := by
  induction es generalizing env with
  | nil => simp [amendAll]
  | cons a rest ih =>
    show (amendAll rest t (amend_empty_set_type a t env)).pathIds u = _
    rw [ih]
    by_cases hua : u = a
    · subst hua
      by_cases hmem : u ∈ rest
      · simp [hmem, amend_pathIds_self]
      · simp [hmem, amend_pathIds_self]
    · have hp : (amend_empty_set_type a t env).pathIds u = env.pathIds u := by
        simp [amend_empty_set_type, hua]
      by_cases hmem : u ∈ rest
      · simp [hmem, hp]
      · simp [hmem, hua, hp]

theorem amendAll_inferred (es : List Nat) (t : SType) (env : Env) :
    (amendAll es t env).inferred = env.inferred := by
  induction es generalizing env with
  | nil => rfl
  | cons a rest ih => exact ih (amend_empty_set_type a t env)

theorem isEmptySetE_shape {l : Expr} (h : isEmptySetE l = true) :
    l = .setE (uidOf l) true := by
  cases l with
  | setE uid emp => cases emp with
    | true => rfl
    | false => simp [isEmptySetE] at h
  | constE t => simp [isEmptySetE] at h
  | typeCheckOp a b => simp [isEmptySetE] at h
  | indexIndirection a b => simp [isEmptySetE] at h

theorem infer_binop_args_frame (it : InferFn) (hit : InferOk it)
    (l r : Expr) (env : Env) (out : SType × SType) (env' : Env)
    (h : infer_binop_args it l r env = .ok (out, env')) :
    preservesOutside (exprUids l ++ exprUids r) env env' ∧
    memoSetPreserves (exprUids l ++ exprUids r) env env' := by
  cases hl : isEmptySetE l with
  | true =>
    cases hr : isEmptySetE r with
    | true =>
      simp [infer_binop_args, hl, hr, except_bind_ok, except_pure] at h
    | false =>
      cases hcr : it r env with
      | error er =>
        simp [infer_binop_args, hl, hr, hcr, except_bind_ok,
          except_bind_err, except_pure] at h
      | ok p =>
        obtain ⟨rt, env2⟩ := p
        have henv : env' = amend_empty_set_type (uidOf l) rt env2 := by
          simp [infer_binop_args, hl, hr, hcr, except_bind_ok, except_pure] at h
          exact h.2.symm
        have hfr := hit r env rt env2 hcr
        have hself : uidOf l ∈ exprUids l ++ exprUids r := by
          rw [isEmptySetE_shape hl]
          simp [exprUids, uidOf]
        subst henv
        constructor
        · exact preservesOutside_trans
            (preservesOutside_mono (fun u hu => by simp [hu]) hfr.1)
            (preservesOutside_mono
              (fun u hu => by simp at hu; rw [hu]; exact hself)
              (amend_preserves (uidOf l) rt env2))
        · exact memoSetPreserves_trans
            (memoSetPreserves_mono (fun u hu => by simp [hu]) hfr.2)
            (memoSetPreserves_of_inferred_eq (amend_inferred _ _ _))
  | false =>
    cases hcl : it l env with
    | error er =>
      simp [infer_binop_args, hl, hcl, except_bind_ok,
        except_bind_err, except_pure] at h
    | ok p =>
      obtain ⟨lt, env1⟩ := p
      have hfl := hit l env lt env1 hcl
      cases hr : isEmptySetE r with
      | true =>
        have henv : env' = amend_empty_set_type (uidOf r) lt env1 := by
          simp [infer_binop_args, hl, hr, hcl, except_bind_ok, except_pure] at h
          exact h.2.symm
        have hself : uidOf r ∈ exprUids l ++ exprUids r := by
          rw [isEmptySetE_shape hr]
          simp [exprUids, uidOf]
        subst henv
        constructor
        · exact preservesOutside_trans
            (preservesOutside_mono (fun u hu => by simp [hu]) hfl.1)
            (preservesOutside_mono
              (fun u hu => by simp at hu; rw [hu]; exact hself)
              (amend_preserves (uidOf r) lt env1))
        · exact memoSetPreserves_trans
            (memoSetPreserves_mono (fun u hu => by simp [hu]) hfl.2)
            (memoSetPreserves_of_inferred_eq (amend_inferred _ _ _))
      | false =>
        cases hcr : it r env1 with
        | error er =>
          simp [infer_binop_args, hl, hr, hcl, hcr, except_bind_ok,
            except_bind_err, except_pure] at h
        | ok q =>
          obtain ⟨rt, env2⟩ := q
          have henv : env' = env2 := by
            simp [infer_binop_args, hl, hr, hcl, hcr, except_bind_ok, except_pure] at h
            exact h.2.symm
          have hfr := hit r env1 rt env2 hcr
          subst henv
          constructor
          · exact preservesOutside_trans
              (preservesOutside_mono (fun u hu => by simp [hu]) hfl.1)
              (preservesOutside_mono (fun u hu => by simp [hu]) hfr.1)
          · exact memoSetPreserves_trans
              (memoSetPreserves_mono (fun u hu => by simp [hu]) hfl.2)
              (memoSetPreserves_mono (fun u hu => by simp [hu]) hfr.2)

theorem infer_index_inv (it : InferFn) (e i : Expr) (env : Env)
    (out : Option SType) (env' : Env)
    (h : infer_index it e i env = .ok (out, env')) :
    ∃ nt env1 ti, it e env = .ok (nt, env1) ∧ it i env1 = .ok (ti, env') := by
  cases hce : it e env with
  | error er => simp [infer_index, hce, except_bind_err] at h
  | ok p =>
    obtain ⟨nt, env1⟩ := p
    cases hci : it i env1 with
    | error er => simp [infer_index, hce, hci, except_bind_ok, except_bind_err] at h
    | ok q =>
      obtain ⟨ti, env2⟩ := q
      have henv : env2 = env' := by
        simp only [infer_index, hce, hci, except_bind_ok] at h
        split at h
        · split at h
          · exact absurd h (by simp)
          · simp [except_pure] at h
            exact h.2
        · split at h
          · split at h
            · exact absurd h (by simp)
            · simp [except_pure] at h
              exact h.2
          · split at h
            · split at h
              · exact absurd h (by simp)
              · simp [except_pure] at h
                exact h.2
            · split at h
              · split at h
                · exact absurd h (by simp)
                · simp [except_pure] at h
                  exact h.2
              · split at h
                · simp [except_pure] at h
                  exact h.2
                · exact absurd h (by simp)
      refine ⟨nt, env1, ti, rfl, ?_⟩
      rw [← henv]
      exact hci

theorem infer_dispatch_frame (it : InferFn) (hit : InferOk it)
    (e : Expr) (env : Env) (out : Option SType) (env' : Env)
    (h : infer_dispatch it e env = .ok (out, env')) :
    preservesOutside (exprUids e) env env' ∧
    memoSetPreserves (exprUids e) env env' := by
  cases e with
  | setE uid emp =>
    have henv : env = env' := by
      simp [infer_dispatch, except_pure] at h
      exact h.2
    subst henv
    exact ⟨preservesOutside_refl _ _, memoSetPreserves_refl _ _⟩
  | constE t =>
    have henv : env = env' := by
      simp [infer_dispatch, except_pure] at h
      exact h.2
    subst henv
    exact ⟨preservesOutside_refl _ _, memoSetPreserves_refl _ _⟩
  | typeCheckOp l r =>
    cases hb : infer_binop_args it l r env with
    | error er => simp [infer_dispatch, hb, except_bind_err] at h
    | ok p =>
      obtain ⟨res, env1⟩ := p
      have henv : env1 = env' := by
        simp [infer_dispatch, hb, except_bind_ok, except_pure] at h
        exact h.2
      subst henv
      exact infer_binop_args_frame it hit l r env res env1 hb
  | indexIndirection a b =>
    obtain ⟨nt, env1, ti, ha, hb⟩ := infer_index_inv it a b env out env' h
    have hfa := hit a env nt env1 ha
    have hfb := hit b env1 ti env' hb
    constructor
    · exact preservesOutside_trans
        (preservesOutside_mono (fun u hu => by simp [exprUids, hu]) hfa.1)
        (preservesOutside_mono (fun u hu => by simp [exprUids, hu]) hfb.1)
    · exact memoSetPreserves_trans
        (memoSetPreserves_mono (fun u hu => by simp [exprUids, hu]) hfa.2)
        (memoSetPreserves_mono (fun u hu => by simp [exprUids, hu]) hfb.2)

theorem infer_type_ok : ∀ fuel : Nat, InferOk (infer_type fuel) := by
  intro fuel
  induction fuel with
  | zero =>
    intro e env t env' h
    simp [infer_type] at h
  | succ f ih =>
    intro e env t env' h
    rw [infer_type] at h
    cases hm : lookupMemo env.inferred e with
    | some t0 =>
      rw [hm] at h
      have henv : env = env' := by
        simp [except_pure] at h
        exact h.2
      subst henv
      exact ⟨preservesOutside_refl _ _, memoSetPreserves_refl _ _⟩
    | none =>
      rw [hm] at h
      cases hd : infer_dispatch (infer_type f) e env with
      | error er => rw [hd] at h; exact absurd h (by simp)
      | ok p =>
        obtain ⟨opt, env1⟩ := p
        rw [hd] at h
        cases opt with
        | none => exact absurd h (by simp)
        | some t1 =>
          simp [except_pure] at h
          obtain ⟨ht1, henv⟩ := h
          have hfr := infer_dispatch_frame (infer_type f) ih e env (some t1) env1 hd
          constructor
          · refine preservesOutside_trans hfr.1 ?_
            intro u hu
            rw [← henv]
            exact ⟨rfl, rfl⟩
          · refine memoSetPreserves_trans hfr.2 ?_
            intro uid emp hu
            rw [← henv]
            show lookupMemo ((e, t1) :: env1.inferred) (.setE uid emp) = _
            have hne : e ≠ .setE uid emp := by
              intro he
              subst he
              exact hu (by simp [exprUids])
            simp [lookupMemo, hne]

theorem partitionArgs_frame (it : InferFn) (hit : InferOk it) :
    ∀ (irs : List Expr) (env : Env) (ts0 : List SType) (es0 : List Nat)
      (fl0 : Bool × Bool × Bool) (env1 : Env),
      partitionArgs it irs env = .ok ((ts0, es0, fl0), env1) →
      preservesOutside (irs.flatMap exprUids) env env1 ∧
      memoSetPreserves (irs.flatMap exprUids) env env1 ∧
      (∀ u ∈ es0, u ∈ irs.flatMap exprUids) := by
  intro irs
  induction irs with
  | nil =>
    intro env ts0 es0 fl0 env1 h
    simp [partitionArgs, except_pure] at h
    obtain ⟨⟨_, hes, _⟩, henv⟩ := h
    subst henv
    refine ⟨preservesOutside_refl _ _, memoSetPreserves_refl _ _, ?_⟩
    rw [hes]
    simp
  | cons a rest ih =>
    intro env ts0 es0 fl0 env1 h
    cases hcond : (isEmptySetE a && (env.set_types (uidOf a)).isNone) with
    | true =>
      rw [partitionArgs, hcond] at h
      simp only [if_true] at h
      cases hp : partitionArgs it rest env with
      | error er =>
        rw [hp] at h
        exact absurd h (by simp [except_bind_err])
      | ok q =>
        obtain ⟨⟨ts, es, flags⟩, env1'⟩ := q
        rw [hp] at h
        simp only [except_bind_ok, except_pure, Except.ok.injEq, Prod.mk.injEq] at h
        obtain ⟨⟨_, hes, _⟩, henv⟩ := h
        subst henv
        obtain ⟨hf1, hf2, hf3⟩ := ih env ts es flags _ hp
        have hsub : ∀ u ∈ rest.flatMap exprUids, u ∈ (a :: rest).flatMap exprUids := by
          intro u hu
          simp only [List.flatMap_cons, List.mem_append]
          exact Or.inr hu
        refine ⟨preservesOutside_mono hsub hf1, memoSetPreserves_mono hsub hf2, ?_⟩
        intro u hu
        rw [← hes] at hu
        simp only [List.mem_cons] at hu
        rcases hu with hu | hu
        · subst hu
          have ha : isEmptySetE a = true := by
            cases hA : isEmptySetE a
            · rw [hA] at hcond; simp at hcond
            · rfl
          rw [isEmptySetE_shape ha]
          simp [exprUids, uidOf]
        · exact hsub u (hf3 u hu)
    | false =>
      rw [partitionArgs, hcond] at h
      simp only [Bool.false_eq_true, if_false] at h
      cases hc : it a env with
      | error er =>
        rw [hc] at h
        exact absurd h (by simp [except_bind_err])
      | ok p =>
        obtain ⟨t, envm⟩ := p
        rw [hc] at h
        simp only [except_bind_ok] at h
        cases hp : partitionArgs it rest envm with
        | error er =>
          rw [hp] at h
          exact absurd h (by simp [except_bind_err])
        | ok q =>
          obtain ⟨⟨ts, es, flags⟩, env1'⟩ := q
          rw [hp] at h
          simp only [except_bind_ok, except_pure, Except.ok.injEq, Prod.mk.injEq] at h
          obtain ⟨⟨_, hes, _⟩, henv⟩ := h
          subst henv
          obtain ⟨hf1, hf2, hf3⟩ := ih envm ts es flags _ hp
          obtain ⟨ha1, ha2⟩ := hit a env t envm hc
          have hsubr : ∀ u ∈ rest.flatMap exprUids, u ∈ (a :: rest).flatMap exprUids := by
            intro u hu
            simp only [List.flatMap_cons, List.mem_append]
            exact Or.inr hu
          have hsuba : ∀ u ∈ exprUids a, u ∈ (a :: rest).flatMap exprUids := by
            intro u hu
            simp only [List.flatMap_cons, List.mem_append]
            exact Or.inl hu
          refine ⟨preservesOutside_trans (preservesOutside_mono hsuba ha1)
              (preservesOutside_mono hsubr hf1),
            memoSetPreserves_trans (memoSetPreserves_mono hsuba ha2)
              (memoSetPreserves_mono hsubr hf2), ?_⟩
          intro u hu
          rw [← hes] at hu
          exact hsubr u (hf3 u hu)


theorem partitionArgs_collects (it : InferFn) (hit : InferOk it) :
    ∀ (irs : List Expr) (env : Env) (ts0 : List SType) (es0 : List Nat)
      (fl0 : Bool × Bool × Bool) (env1 : Env),
      partitionArgs it irs env = .ok ((ts0, es0, fl0), env1) →
      (∀ x ∈ irs, ∀ y ∈ irs, x ≠ y → ∀ u ∈ exprUids x, u ∉ exprUids y) →
      ∀ uid, Expr.setE uid true ∈ irs → env.set_types uid = none →
        uid ∈ es0 ∧ env1.set_types uid = none ∧ env1.pathIds uid = env.pathIds uid := by
  intro irs
  induction irs with
  | nil =>
    intro env ts0 es0 fl0 env1 h hdisj uid hmem
    cases hmem
  | cons a rest ih =>
    intro env ts0 es0 fl0 env1 h hdisj uid hmem hnone
    have hdisjr : ∀ x ∈ rest, ∀ y ∈ rest, x ≠ y → ∀ u ∈ exprUids x, u ∉ exprUids y :=
      fun x hx y hy => hdisj x (by simp [hx]) y (by simp [hy])
    cases hcond : (isEmptySetE a && (env.set_types (uidOf a)).isNone) with
    | true =>
      rw [partitionArgs, hcond] at h
      simp only [if_true] at h
      cases hp : partitionArgs it rest env with
      | error er =>
        rw [hp] at h
        exact absurd h (by simp [except_bind_err])
      | ok q =>
        obtain ⟨⟨ts, es, flags⟩, env1p⟩ := q
        rw [hp] at h
        simp only [except_bind_ok, except_pure, Except.ok.injEq, Prod.mk.injEq] at h
        obtain ⟨⟨_, hes, _⟩, henv⟩ := h
        subst henv
        by_cases hrest : Expr.setE uid true ∈ rest
        · obtain ⟨h1, h2, h3⟩ := ih env ts es flags _ hp hdisjr uid hrest hnone
          refine ⟨?_, h2, h3⟩
          rw [← hes]
          simp [h1]
        · rcases List.mem_cons.mp hmem with ha | ha
          · have huid : uidOf a = uid := by rw [← ha]; rfl
            have hnotin : uid ∉ rest.flatMap exprUids := by
              intro hin
              simp only [List.mem_flatMap] at hin
              obtain ⟨y, hy, huy⟩ := hin
              have hxy : Expr.setE uid true ≠ y := by
                intro he
                rw [← he] at hy
                exact hrest hy
              exact hdisj (Expr.setE uid true) (by rw [ha]; simp) y (by simp [hy]) hxy
                uid (by simp [exprUids]) huy
            obtain ⟨hf1, _, _⟩ := partitionArgs_frame it hit rest env ts es flags _ hp
            obtain ⟨hst, hpi⟩ := hf1 uid hnotin
            refine ⟨?_, hst.trans hnone, hpi⟩
            rw [← hes, huid]
            simp
          · exact absurd ha hrest
    | false =>
      rw [partitionArgs, hcond] at h
      simp only [Bool.false_eq_true, if_false] at h
      rcases List.mem_cons.mp hmem with ha | hrest
      · rw [← ha] at hcond
        simp [isEmptySetE, uidOf, hnone] at hcond
      · by_cases hae : a = Expr.setE uid true
        · rw [hae] at hcond
          simp [isEmptySetE, uidOf, hnone] at hcond
        · cases hc : it a env with
          | error er =>
            rw [hc] at h
            exact absurd h (by simp [except_bind_err])
          | ok p =>
            obtain ⟨t, envm⟩ := p
            rw [hc] at h
            simp only [except_bind_ok] at h
            cases hp : partitionArgs it rest envm with
            | error er =>
              rw [hp] at h
              exact absurd h (by simp [except_bind_err])
            | ok q =>
              obtain ⟨⟨ts, es, flags⟩, env1p⟩ := q
              rw [hp] at h
              simp only [except_bind_ok, except_pure, Except.ok.injEq, Prod.mk.injEq] at h
              obtain ⟨⟨_, hes, _⟩, henv⟩ := h
              subst henv
              have huidnotina : uid ∉ exprUids a := by
                refine hdisj (Expr.setE uid true) (by simp [hrest]) a (by simp) ?_
                  uid (by simp [exprUids])
                intro he
                exact hae he.symm
              obtain ⟨hsa, hpa⟩ := (hit a env t envm hc).1 uid huidnotina
              obtain ⟨h1, h2, h3⟩ := ih envm ts es flags _ hp hdisjr uid hrest
                (hsa.trans hnone)
              refine ⟨?_, h2, h3.trans hpa⟩
              rw [← hes]
              exact h1

theorem infer_type_setE_inv (fuel : Nat) (uid : Nat) (emp : Bool) (env : Env)
    (t t0 : SType) (env' : Env)
    (h : infer_type fuel (.setE uid emp) env = .ok (t, env'))
    (hst : env.set_types uid = some t0)
    (hm : lookupMemo env.inferred (.setE uid emp) = none ∨
          lookupMemo env.inferred (.setE uid emp) = some t0) :
    t = t0 ∧ env'.set_types uid = some t0 ∧
    lookupMemo env'.inferred (.setE uid emp) = some t0 ∧
    (∀ u, env'.set_types u = env.set_types u ∧ env'.pathIds u = env.pathIds u) := by
  cases fuel with
  | zero => simp [infer_type] at h
  | succ f =>
    rw [infer_type] at h
    cases hm2 : lookupMemo env.inferred (.setE uid emp) with
    | some tm =>
      rw [hm2] at h
      simp [except_pure] at h
      obtain ⟨ht, henv⟩ := h
      rcases hm with hmn | hms
      · rw [hm2] at hmn; cases hmn
      · rw [hm2] at hms
        have htm : tm = t0 := by injection hms
        subst htm
        subst ht
        rw [← henv]
        exact ⟨rfl, hst, hm2, fun u => ⟨rfl, rfl⟩⟩
    | none =>
      rw [hm2] at h
      have hd : infer_dispatch (infer_type f) (.setE uid emp) env =
          .ok (env.set_types uid, env) := rfl
      rw [hd, hst] at h
      simp [except_pure] at h
      obtain ⟨ht, henv⟩ := h
      subst ht
      rw [← henv]
      refine ⟨rfl, hst, ?_, fun u => ⟨rfl, rfl⟩⟩
      simp [lookupMemo]

theorem partitionArgs_typed_empty (fuel : Nat) :
    ∀ (irs : List Expr) (env : Env) (ts0 : List SType) (es0 : List Nat)
      (fl0 : Bool × Bool × Bool) (env1 : Env) (uid : Nat) (t0 : SType),
      partitionArgs (infer_type fuel) irs env = .ok ((ts0, es0, fl0), env1) →
      (∀ x ∈ irs, ∀ y ∈ irs, x ≠ y → ∀ u ∈ exprUids x, u ∉ exprUids y) →
      Expr.setE uid true ∈ irs →
      env.set_types uid = some t0 →
      (lookupMemo env.inferred (.setE uid true) = none ∨
       lookupMemo env.inferred (.setE uid true) = some t0) →
      uid ∉ es0 ∧ t0 ∈ ts0 ∧ env1.set_types uid = some t0 := by
  intro irs
  induction irs with
  | nil =>
    intro env ts0 es0 fl0 env1 uid t0 h hdisj hmem
    cases hmem
  | cons a rest ih =>
    intro env ts0 es0 fl0 env1 uid t0 h hdisj hmem hrec hmemo
    have hdisjr : ∀ x ∈ rest, ∀ y ∈ rest, x ≠ y → ∀ u ∈ exprUids x, u ∉ exprUids y :=
      fun x hx y hy => hdisj x (by simp [hx]) y (by simp [hy])
    cases hcond : (isEmptySetE a && (env.set_types (uidOf a)).isNone) with
    | true =>
      rw [partitionArgs, hcond] at h
      simp only [if_true] at h
      cases hp : partitionArgs (infer_type fuel) rest env with
      | error er =>
        rw [hp] at h
        exact absurd h (by simp [except_bind_err])
      | ok q =>
        obtain ⟨⟨ts, es, flags⟩, env1p⟩ := q
        rw [hp] at h
        simp only [except_bind_ok, except_pure, Except.ok.injEq, Prod.mk.injEq] at h
        obtain ⟨⟨hts, hes, _⟩, henv⟩ := h
        subst henv
        have hane : a ≠ Expr.setE uid true := by
          intro he
          rw [he] at hcond
          simp only [isEmptySetE, uidOf, hrec] at hcond
          simp at hcond
        have hrest : Expr.setE uid true ∈ rest := by
          rcases List.mem_cons.mp hmem with hx | hx
          · exact absurd hx.symm hane
          · exact hx
        obtain ⟨h1, h2, h3⟩ := ih env ts es flags _ uid t0 hp hdisjr hrest hrec hmemo
        refine ⟨?_, by rw [← hts]; exact h2, h3⟩
        rw [← hes]
        simp only [List.mem_cons]
        rintro (he | he)
        · have hemp : isEmptySetE a = true := by
            cases hA : isEmptySetE a
            · rw [hA] at hcond; simp at hcond
            · rfl
          have := hdisj a (by simp) (Expr.setE uid true) (by simp [hrest]) hane
          rw [isEmptySetE_shape hemp] at this
          exact this (uidOf a) (by simp [exprUids, uidOf]) (by simp [exprUids, he])
        · exact h1 he
    | false =>
      rw [partitionArgs, hcond] at h
      simp only [Bool.false_eq_true, if_false] at h
      cases hc : infer_type fuel a env with
      | error er =>
        rw [hc] at h
        exact absurd h (by simp [except_bind_err])
      | ok p =>
        obtain ⟨t, envm⟩ := p
        rw [hc] at h
        simp only [except_bind_ok] at h
        cases hp : partitionArgs (infer_type fuel) rest envm with
        | error er =>
          rw [hp] at h
          exact absurd h (by simp [except_bind_err])
        | ok q =>
          obtain ⟨⟨ts, es, flags⟩, env1p⟩ := q
          rw [hp] at h
          simp only [except_bind_ok, except_pure, Except.ok.injEq, Prod.mk.injEq] at h
          obtain ⟨⟨hts, hes, _⟩, henv⟩ := h
          subst henv
          by_cases hae : a = Expr.setE uid true
          · subst hae
            obtain ⟨ht, hsm, hmm, hall⟩ :=
              infer_type_setE_inv fuel uid true env t t0 envm hc hrec hmemo
            by_cases hrest : Expr.setE uid true ∈ rest
            · obtain ⟨h1, h2, h3⟩ := ih envm ts es flags _ uid t0 hp hdisjr hrest hsm
                (Or.inr hmm)
              refine ⟨by rw [← hes]; exact h1, ?_, h3⟩
              rw [← hts]
              simp [ht]
            · have hnotin : uid ∉ rest.flatMap exprUids := by
                intro hin
                simp only [List.mem_flatMap] at hin
                obtain ⟨y, hy, huy⟩ := hin
                have hxy : Expr.setE uid true ≠ y := by
                  intro he
                  rw [← he] at hy
                  exact hrest hy
                exact hdisj (Expr.setE uid true) (by simp) y (by simp [hy]) hxy
                  uid (by simp [exprUids]) huy
              obtain ⟨hf1, _, hf3⟩ :=
                partitionArgs_frame (infer_type fuel) (infer_type_ok fuel)
                  rest envm ts es flags _ hp
              refine ⟨?_, by rw [← hts]; simp [ht], ((hf1 uid hnotin).1).trans hsm⟩
              rw [← hes]
              intro hin
              exact hnotin (hf3 uid hin)
          · have huidnotina : uid ∉ exprUids a := by
              have hrest : Expr.setE uid true ∈ rest := by
                rcases List.mem_cons.mp hmem with hx | hx
                · exact absurd hx.symm hae
                · exact hx
              refine hdisj (Expr.setE uid true) (by simp [hrest]) a (by simp) ?_
                uid (by simp [exprUids])
              intro he
              exact hae he.symm
            have hrest : Expr.setE uid true ∈ rest := by
              rcases List.mem_cons.mp hmem with hx | hx
              · exact absurd hx.symm hae
              · exact hx
            obtain ⟨hfa, hma⟩ := (infer_type_ok fuel) a env t envm hc
            have hrec2 : envm.set_types uid = some t0 :=
              ((hfa uid huidnotina).1).trans hrec
            have hmemo2 : lookupMemo envm.inferred (.setE uid true) = none ∨
                lookupMemo envm.inferred (.setE uid true) = some t0 := by
              rw [hma uid true huidnotina]
              exact hmemo
            obtain ⟨h1, h2, h3⟩ := ih envm ts es flags _ uid t0 hp hdisjr hrest
              hrec2 hmemo2
            refine ⟨by rw [← hes]; exact h1, ?_, h3⟩
            rw [← hts]
            simp [h2]

theorem common_type_inv (fuel : Nat) (irs : List Expr) (env : Env)
    (res : Option SType) (env' : Env)
    (h : _infer_common_type fuel irs env = .ok (res, env')) :
    ∃ ts0 es0 fl0 env1,
      partitionArgs (infer_type fuel) irs env = .ok ((ts0, es0, fl0), env1) ∧
      ((res = none ∧ env' = env1) ∨
       (∃ ct, res = some ct ∧ env' = amendAll es0 ct env1)) := by
  simp only [_infer_common_type] at h
  split at h
  · exact absurd h (by simp)
  · cases hp : partitionArgs (infer_type fuel) irs env with
    | error er =>
      rw [hp] at h
      exact absurd h (by simp [except_bind_err])
    | ok q =>
      obtain ⟨⟨ts, es, ⟨sc, ss, so⟩⟩, env1⟩ := q
      rw [hp] at h
      simp only [except_bind_ok] at h
      split at h
      · exact absurd h (by simp)
      · split at h
        · exact absurd h (by simp)
        · refine ⟨ts, es, (sc, ss, so), env1, rfl, ?_⟩
          split at h
          · simp [except_pure] at h
            exact Or.inl ⟨h.1.symm, h.2.symm⟩
          · simp [except_pure] at h
            exact Or.inr ⟨_, h.1.symm, h.2.symm⟩

/-- C2: whenever `_infer_common_type` returns a common type T, every
argument that was an EmptySet with no recorded type at entry has its
recorded type set to T and its path id re-derived under module
`__derived__`, keeping the original name hint and namespace.  The
arguments are assumed not to share Set nodes with one another. -/
theorem c2_empty_set_closure (fuel : Nat) (irs : List Expr) (env : Env)
    (T : SType) (env' : Env)
    (h : _infer_common_type fuel irs env = .ok (some T, env'))
    (hdisj : ∀ x ∈ irs, ∀ y ∈ irs, x ≠ y → ∀ u ∈ exprUids x, u ∉ exprUids y) :
    ∀ uid, Expr.setE uid true ∈ irs → env.set_types uid = none →
      env'.set_types uid = some T ∧
      env'.pathIds uid =
        ⟨⟨"__derived__", (env.pathIds uid).target_name_hint.name⟩,
         (env.pathIds uid).ns, some T⟩ := by
  intro uid hmem hnone
  obtain ⟨ts0, es0, fl0, env1, hp, hres⟩ :=
    common_type_inv fuel irs env (some T) env' h
  rcases hres with ⟨hn, _⟩ | ⟨ct, hct, henv⟩
  · cases hn
  · have hctT : ct = T := by injection hct with hh; exact hh.symm
    subst hctT
    subst henv
    obtain ⟨h1, h2, h3⟩ := partitionArgs_collects (infer_type fuel)
      (infer_type_ok fuel) irs env ts0 es0 fl0 env1 hp hdisj uid hmem hnone
    constructor
    · rw [amendAll_set_types]
      simp [h1]
    · rw [amendAll_pathIds]
      simp [h1, h3]

/-- C2 witness: an untyped EmptySet next to a str constant. -/
theorem c2_empty_set_closure_witness :
    ∃ env', _infer_common_type 1 [.setE 1 true, .constE stdStr] envW =
        .ok (some stdStr, env') ∧
      env'.set_types 1 = some stdStr ∧
      env'.pathIds 1 = ⟨⟨"__derived__", "x"⟩, ["ns0"], some stdStr⟩ := by
  refine ⟨_, rfl, ?_⟩
  have hc := c2_empty_set_closure 1 [.setE 1 true, .constE stdStr] envW stdStr _
    rfl (by decide) 1 (by simp) rfl
  exact ⟨hc.1, hc.2.trans rfl⟩

/-- C9: an EmptySet argument whose type is already recorded is not
collected as empty: it contributes its recorded type to the partition
like an ordinary typed argument, and the common-type call leaves its
recorded type unchanged.  The arguments are assumed not to share Set
nodes and no stale memo entry exists for the node. -/
theorem c9_recorded_empty_set_participates (fuel : Nat) (irs : List Expr)
    (env : Env) (uid : Nat) (t0 : SType)
    (hmem : Expr.setE uid true ∈ irs)
    (hrec : env.set_types uid = some t0)
    (hmemo : lookupMemo env.inferred (.setE uid true) = none)
    (hdisj : ∀ x ∈ irs, ∀ y ∈ irs, x ≠ y → ∀ u ∈ exprUids x, u ∉ exprUids y) :
    (∀ ts0 es0 fl0 env1,
      partitionArgs (infer_type fuel) irs env = .ok ((ts0, es0, fl0), env1) →
      uid ∉ es0 ∧ t0 ∈ ts0 ∧ env1.set_types uid = some t0) ∧
    (∀ res env', _infer_common_type fuel irs env = .ok (res, env') →
      env'.set_types uid = some t0) := by
  constructor
  · intro ts0 es0 fl0 env1 hp
    exact partitionArgs_typed_empty fuel irs env ts0 es0 fl0 env1 uid t0 hp
      hdisj hmem hrec (Or.inl hmemo)
  · intro res env' h
    obtain ⟨ts0, es0, fl0, env1, hp, hres⟩ := common_type_inv fuel irs env res env' h
    obtain ⟨h1, _, h3⟩ := partitionArgs_typed_empty fuel irs env ts0 es0 fl0 env1
      uid t0 hp hdisj hmem hrec (Or.inl hmemo)
    rcases hres with ⟨_, henv⟩ | ⟨ct, _, henv⟩
    · rw [henv]
      exact h3
    · rw [henv, amendAll_set_types]
      simp [h1, h3]

/-- C9 witness: a typed EmptySet (recorded as int64) next to an int64
constant. -/
theorem c9_recorded_empty_set_participates_witness :
    partitionArgs (infer_type 1) [.setE 5 true, .constE stdInt64]
        { envW with set_types := fun u => if u = 5 then some stdInt64 else none } =
      .ok (([stdInt64, stdInt64], [], (false, true, false)),
        { envW with
          set_types := fun u => if u = 5 then some stdInt64 else none
          inferred := [(.constE stdInt64, stdInt64), (.setE 5 true, stdInt64)] }) ∧
    (5 : Nat) ∉ ([] : List Nat) ∧ stdInt64 ∈ [stdInt64, stdInt64] ∧
    (∀ res env', _infer_common_type 1 [.setE 5 true, .constE stdInt64]
        { envW with set_types := fun u => if u = 5 then some stdInt64 else none } =
        .ok (res, env') →
      env'.set_types 5 = some stdInt64) := by
  refine ⟨rfl, by decide, by simp, ?_⟩
  exact (c9_recorded_empty_set_participates 1 [.setE 5 true, .constE stdInt64]
    { envW with set_types := fun u => if u = 5 then some stdInt64 else none }
    5 stdInt64 (by simp) rfl rfl (by decide)).2
